import Mathlib

/-! Verification of the thermal-monitor control program (`src/monitor.py`).

This file gives a shallow embedding of the program's core logic and proves
the specification claims about it.

Modelling conventions:

* Python floats are modelled as exact rationals (`ℚ`).
* A telemetry reading (`Row`) is modelled by its mandatory `TIME` field plus a
  partial map from the six monitored channel names to values; channels not in
  the monitored sets are never consulted by the functions under study.
* Code that can raise a Python exception is modelled in `Option`: `none`
  means the call raised (`KeyError` for a missing channel, the error from
  `gaussian_filter1d` when `sigma is None`, …).  After an exception the run
  loop aborts to cleanup, so the partially mutated tracker state at the point
  of the raise is never consulted again and is not modelled.
* `scipy.ndimage.gaussian_filter1d` is an external library call.  Its
  documented behaviour for order 0 is: sample the Gaussian
  `exp(-x²/(2σ²))` at integer offsets, normalize the samples to sum to 1,
  and correlate with the input using the `reflect` boundary mode.  The
  irrational Gaussian samples are supplied as a parameter
  `kern : ℚ → List ℚ` (sigma ↦ unnormalized weights); normalization and
  reflect-mode correlation are defined concretely below, following scipy.
-/

namespace Monitor

/-- The monitored channel names (`KEYS_TO_CHECK_THRESHOLD` ∪ `KEYS_TO_CHECK_STEADY`). -/
inductive Key where
  | POWER_TMP2
  | POWER_TMP3
  | THERMO_X_TEMP
  | THERMO_Z_TEMP
  | THERMO_SP_TEMP
  | THERMO_NSP_TEMP
deriving DecidableEq, Repr

instance : Fintype Key :=
  ⟨⟨{.POWER_TMP2, .POWER_TMP3, .THERMO_X_TEMP, .THERMO_Z_TEMP,
     .THERMO_SP_TEMP, .THERMO_NSP_TEMP}, by decide⟩, fun k => by cases k <;> decide⟩

/-- The list `KEYS_TO_CHECK_THRESHOLD` from `monitor.py`. -/
def KEYS_TO_CHECK_THRESHOLD : List Key :=
  [.POWER_TMP2, .POWER_TMP3, .THERMO_X_TEMP, .THERMO_Z_TEMP,
   .THERMO_SP_TEMP, .THERMO_NSP_TEMP]

/-- The list `KEYS_TO_CHECK_STEADY` from `monitor.py`. -/
def KEYS_TO_CHECK_STEADY : List Key :=
  [.THERMO_X_TEMP, .THERMO_Z_TEMP, .THERMO_SP_TEMP, .THERMO_NSP_TEMP]

/-- One parsed telemetry reading: the mandatory `TIME` value plus the values
of the monitored channels that are present in the row dictionary
(`row.get k = none` models a channel absent from the reading). -/
structure Row where
  time : ℚ
  get : Key → Option ℚ

instance : DecidableEq Row := fun a b =>
  decidable_of_iff (a.time = b.time ∧ a.get = b.get)
    (by cases a; cases b; simp)

instance : Inhabited Row := ⟨⟨0, fun _ => none⟩⟩

/-- The steady-state configuration carried by `Device`
(`threshold` plus the four optional steady parameters). -/
structure DeviceConfig where
  threshold : ℚ
  steady_window : Option ℚ
  steady_sigma : Option ℚ
  steady_threshold : Option ℚ
  steady_check_every : Option ℚ
deriving DecidableEq

/-- The per-channel mutable state of one steady tracker:
`steady_history` (a deque of `(time, value)` pairs, front = oldest) and
`steady_last_check` (timestamp of the last evaluation, or never). -/
structure TrackerState where
  history : Key → List (ℚ × ℚ)
  lastCheck : Key → Option ℚ

instance : DecidableEq TrackerState := fun a b =>
  decidable_of_iff (a.history = b.history ∧ a.lastCheck = b.lastCheck)
    (by cases a; cases b; simp)

/-- The tracker state built in `Device.__init__`: empty deques, no channel
ever evaluated. -/
def TrackerState.init : TrackerState := ⟨fun _ => [], fun _ => none⟩

/-! ## Gaussian smoothing (`scipy.ndimage.gaussian_filter1d`) -/

/-- scipy's `reflect` boundary mode: index `i : ℤ` is folded into `[0, n)`
by reflection about the array edges (pattern `d c b a | a b c d | d c b a`). -/
def reflectIndex (n : ℕ) (i : ℤ) : ℕ :=
  let r := (i % (2 * (n : ℤ))).toNat
  if r < n then r else 2 * n - 1 - r

/-- Correlation of `data` with the (odd-length) weight list `w`, using the
`reflect` boundary mode; `output[i] = Σ_j w[j] * data[reflect (i + j - lw)]`
with `lw` the center offset, as in `scipy.ndimage.correlate1d`. -/
def correlate1d (data w : List ℚ) : List ℚ :=
  let n := data.length
  let lw := w.length / 2
  (List.range n).map fun (i : ℕ) =>
    ((List.range w.length).map fun (j : ℕ) =>
      w.getD j 0 * data.getD (reflectIndex n ((i : ℤ) + (j : ℤ) - (lw : ℤ))) 0).sum

/-- Model of `gaussian_filter1d`, with the (irrational) raw Gaussian samples supplied
as `kern`: normalize the samples to sum 1 and correlate in `reflect` mode,
exactly scipy's order-0 path. -/
def gaussian_filter1d (kern : List ℚ) (data : List ℚ) : List ℚ :=
  correlate1d data (kern.map (· / kern.sum))

/-! ## `np.std` -/

/-- Model of `np.mean`. -/
def npMean (xs : List ℚ) : ℚ := xs.sum / xs.length

/-- Population variance, `np.std(xs) ^ 2`. -/
def npVariance (xs : List ℚ) : ℚ :=
  (xs.map fun x => (x - npMean xs) ^ 2).sum / xs.length

/-- The comparison `np.std(xs) < t` performed by `_check_steady`, expressed
in ℚ: since `np.std xs = √(npVariance xs)` and the variance is nonnegative,
`√v < t ↔ 0 < t ∧ v < t²`.  (If `t ≤ 0` the comparison is always false
because a standard deviation is nonnegative.) -/
def stdLt (xs : List ℚ) (t : ℚ) : Bool :=
  decide (0 < t ∧ npVariance xs < t ^ 2)

/-! ## `Device._check_steady` -/

/-- Outcome of `_check_steady`'s loop body for a single channel. -/
structure ChanResult where
  steady : Bool
  evaluated : Bool
  history : List (ℚ × ℚ)
  lastCheck : Option ℚ
deriving DecidableEq

/-- The eviction loop at the end of a channel evaluation:
`while last_entry[0] - history[0][0] >= steady_window: history.popleft()`.
(`lastT` is `last_entry[0]`, the time of the just-appended entry.)
Evaluating the loop condition reads `history[0][0]`, which on an emptied
deque raises `IndexError`; `none` models that raise.  The loop pops every
entry — and so raises — at every evaluation once `steady_window ≤ 0`,
since the just-appended entry itself then satisfies
`lastT - lastT = 0 ≥ steady_window`. -/
def evict (win lastT : ℚ) : List (ℚ × ℚ) → Option (List (ℚ × ℚ))
  | [] => none
  | e :: rest => if lastT - e.1 ≥ win then evict win lastT rest else some (e :: rest)

/-- The body of `_check_steady`'s `for key in KEYS_TO_CHECK_STEADY` loop for
one channel, given the configured `sigma`, `steady_threshold`,
`steady_check_every` and `steady_window` and the channel's current deque and
last-check time.  `none` models a raised exception: `KeyError` when the
channel is missing from the row, `gaussian_filter1d` failing when
`sigma is None`, or the eviction loop's `IndexError` on an emptied deque. -/
def checkChannel (kern : ℚ → List ℚ) (sigma : Option ℚ) (sthr chk win : ℚ)
    (row : Row) (k : Key) (hist : List (ℚ × ℚ)) (lastC : Option ℚ) :
    Option ChanResult :=
  match row.get k with
  | none => none
  | some temp =>
    let t := row.time
    let hist2 := hist ++ [(t, temp)]
    let skipRecent : Bool :=
      match lastC with
      | some lc => decide (t - lc < chk)
      | none => false
    let skipSpan : Bool := decide (t - hist2.headI.1 < chk)
    if skipRecent || skipSpan then
      some ⟨false, false, hist2, lastC⟩
    else
      match sigma with
      | none => none
      | some sg =>
        let filtered := gaussian_filter1d (kern sg) (hist2.map Prod.snd)
        match evict win t hist2 with
        | none => none
        | some h2 => some ⟨stdLt filtered sthr, true, h2, some t⟩

/-- Application of `checkChannel` to channel `k`'s slots of a tracker state. -/
def chanOutcome (kern : ℚ → List ℚ) (sigma : Option ℚ) (sthr chk win : ℚ)
    (row : Row) (st : TrackerState) (k : Key) : Option ChanResult :=
  checkChannel kern sigma sthr chk win row k (st.history k) (st.lastCheck k)

/-- Writing a channel's processed deque and last-check time back into the
tracker's two dictionaries. -/
def updState (st : TrackerState) (k : Key) (cr : ChanResult) : TrackerState :=
  ⟨Function.update st.history k cr.history,
   Function.update st.lastCheck k cr.lastCheck⟩

/-- The `for key in KEYS_TO_CHECK_STEADY` loop of `_check_steady`, threading
the tracker state and collecting each channel's steadiness flag in order
(a skipped channel's flag stays `False`, as in the `steady` dict). -/
def checkSteadyAux (kern : ℚ → List ℚ) (sigma : Option ℚ) (sthr chk win : ℚ)
    (row : Row) : List Key → TrackerState →
    Option (List (Key × Bool) × TrackerState)
  | [], st => some ([], st)
  | k :: ks, st =>
    match checkChannel kern sigma sthr chk win row k (st.history k) (st.lastCheck k) with
    | none => none
    | some cr =>
      match checkSteadyAux kern sigma sthr chk win row ks (updState st k cr) with
      | none => none
      | some (flags, st3) => some ((k, cr.steady) :: flags, st3)

/-- Model of `Device._check_steady`: returns `False` immediately (mutating nothing)
when any of `steady_window`, `steady_threshold`, `steady_check_every` is
unset; otherwise processes every monitored channel and returns the
conjunction of the per-channel steadiness flags together with the updated
tracker state.  `none` models a raised exception. -/
def check_steady (kern : ℚ → List ℚ) (cfg : DeviceConfig) (st : TrackerState)
    (row : Row) : Option (Bool × TrackerState) :=
  match cfg.steady_window, cfg.steady_threshold, cfg.steady_check_every with
  | some win, some sthr, some chk =>
    (checkSteadyAux kern cfg.steady_sigma sthr chk win row KEYS_TO_CHECK_STEADY st).map
      fun p => (p.1.all Prod.snd, p.2)
  | _, _, _ => some (false, st)

/-- A whole input sequence fed to one tracker, call after call
(`foldlM` over `check_steady`, keeping only the state). -/
def runTracker (kern : ℚ → List ℚ) (cfg : DeviceConfig) (st : TrackerState)
    (rows : List Row) : Option TrackerState :=
  rows.foldlM (fun s row => (check_steady kern cfg s row).map Prod.snd) st

/-- The quantity `last_entry[0] - history[0][0]`, the buffered span computed by the skip
test of `_check_steady` for channel `k` after the current reading has been
appended.  (The head's time does not depend on the appended value, so a
placeholder value `0` is used.) -/
def spanAfter (st : TrackerState) (row : Row) (k : Key) : ℚ :=
  row.time - ((st.history k ++ [(row.time, 0)]).headI).1

/-- The skip condition of `_check_steady` for channel `k`: the channel was
last evaluated less than `steady_check_every` seconds before the reading's
`TIME`, or its buffered span is still less than `steady_check_every`. -/
def skipCond (chk : ℚ) (st : TrackerState) (row : Row) (k : Key) : Prop :=
  (∃ lc, st.lastCheck k = some lc ∧ row.time - lc < chk) ∨ spanAfter st row k < chk

/-- Invariant tying a tracker state to the readings still to come: for every
channel, the recorded history times followed by the future reading times form
a non-decreasing sequence (so the history is sorted and precedes every
future reading). -/
def TimesChain (st : TrackerState) (rows : List Row) : Prop :=
  ∀ k, List.Chain' (· ≤ ·) ((st.history k).map Prod.fst ++ rows.map Row.time)

/-- The tracker state after feeding per-channel-constant readings that were
all skipped: each monitored channel's deque holds the processed readings'
`(time, c k)` pairs and no channel has ever been evaluated. -/
def constHistState (c : Key → ℚ) (done : List Row) : TrackerState :=
  ⟨fun k => if k ∈ KEYS_TO_CHECK_STEADY
      then done.map (fun r => (r.time, c k)) else [],
   fun _ => none⟩

/-! ## `Device.under_threshold` -/

/-- Model of `Device.under_threshold`: `row.get(key, 0) >= self.threshold` fails the
gate for any monitored key; a key absent from the row contributes `0`.
A pure function of the reading and the threshold. -/
def under_threshold (threshold : ℚ) (row : Row) : Bool :=
  KEYS_TO_CHECK_THRESHOLD.all fun k => !decide ((row.get k).getD 0 ≥ threshold)

/-! ## `Device.terminate`

`terminate` spawns the `cmg-cli set --idle` command in a loop until one
invocation exits with status 0, then latches `self.terminated`.  The exit
statuses of the successive invocations are the model's input `codes`; the
result is `(number of idle commands issued, final terminated flag)`, and
`none` models the source's unbounded `while` loop never finding a zero
status (it never gives up). -/
def terminate : Bool → List ℤ → Option (ℕ × Bool)
  | true, _ => some (0, true)
  | false, [] => none
  | false, c :: rest =>
    if c = 0 then some (1, true)
    else (terminate false rest).map fun p => (p.1 + 1, p.2)

/-! ## `run_experiment` -/

/-- The configuration parameters of `run_experiment` that the control loop
reads (the logger-only parameters `name`/`append` are I/O glue). -/
structure RunConfig where
  threshold : ℚ
  time_limit : ℚ
  speed : Option ℚ
  gimbal : Option ℚ
  defer_start : Option ℚ
  check_init_steady : Bool
  steady_window : Option ℚ
  steady_sigma : Option ℚ
  steady_threshold : Option ℚ
  steady_check_every : Option ℚ

/-- The `Device` configuration built from a `RunConfig` in `run_experiment`. -/
def RunConfig.deviceCfg (cfg : RunConfig) : DeviceConfig :=
  ⟨cfg.threshold, cfg.steady_window, cfg.steady_sigma,
   cfg.steady_threshold, cfg.steady_check_every⟩

/-- Why the `for` loop stopped. -/
inductive StopReason where
  | threshold_exceeded
  | time_limit_reached
  | steady_state_reached
  | source_exhausted
  | runtime_error
deriving DecidableEq, Repr

/-- The observable side effects of the loop body, in program order. -/
inductive Event where
  | logged (row : Row)
  | activate (speed gimbal : ℚ)
  | idleCmd
deriving DecidableEq

/-- The mutable loop variables of `run_experiment` together with the
`Device`'s two tracker states. -/
structure LoopState where
  motor_activated : Bool
  check_init : Bool
  initTracker : TrackerState
  steadyTracker : TrackerState

instance : DecidableEq LoopState := fun a b =>
  decidable_of_iff (a.motor_activated = b.motor_activated ∧ a.check_init = b.check_init
      ∧ a.initTracker = b.initTracker ∧ a.steadyTracker = b.steadyTracker)
    (by cases a; cases b; simp)

/-- The loop state on entry to the `for` loop
(`motor_activated = False`, fresh trackers). -/
def initLoopState (cfg : RunConfig) : LoopState :=
  ⟨false, cfg.check_init_steady, TrackerState.init, TrackerState.init⟩

/-- Result of one loop-body iteration: `stopped` is a `break` (carrying the
device state at the break), `err` is an exception propagating to the outer
`except`, `next` is a `continue` or normal fall-through. -/
inductive StepRes where
  | stopped (r : StopReason) (s : LoopState)
  | err
  | next (s : LoopState)

/-- Lines 352–358: the post-activation steady check.  If steady, `break`
with `steady_state_reached` (the tracker was mutated by the call before the
`break`); else continue the loop with the mutated tracker. -/
def stepSteadyCheck (kern : ℚ → List ℚ) (cfg : RunConfig) (s : LoopState)
    (row : Row) : StepRes :=
  match check_steady kern cfg.deviceCfg s.steadyTracker row with
  | none => .err
  | some (true, tr) => .stopped .steady_state_reached {s with steadyTracker := tr}
  | some (false, tr) => .next {s with steadyTracker := tr}

/-- Lines 343–358: motor activation (with the partial-parameter `assert`)
followed by the post-activation steady check.  `speed xor gimbal` set makes
the `assert` raise before `motor_activated = True` is reached. -/
def stepMotorSteady (kern : ℚ → List ℚ) (cfg : RunConfig) (s : LoopState)
    (row : Row) : List Event × StepRes :=
  if s.motor_activated then ([], stepSteadyCheck kern cfg s row)
  else
    match cfg.speed, cfg.gimbal with
    | some sp, some gb =>
      ([.activate sp gb],
       stepSteadyCheck kern cfg {s with motor_activated := true} row)
    | none, none =>
      ([], stepSteadyCheck kern cfg {s with motor_activated := true} row)
    | _, _ => ([], .err)

/-- Lines 333–358: the initial-steady gate (one-shot latch on success,
`continue` while unsatisfied), then motor activation and steady check. -/
def stepChecked (kern : ℚ → List ℚ) (cfg : RunConfig) (s : LoopState)
    (row : Row) : List Event × StepRes :=
  if s.check_init then
    match check_steady kern cfg.deviceCfg s.initTracker row with
    | none => ([], .err)
    | some (false, tr) => ([], .next {s with initTracker := tr})
    | some (true, tr) =>
      stepMotorSteady kern cfg {s with initTracker := tr, check_init := false} row
  else stepMotorSteady kern cfg s row

/-- One full iteration of the `for i, row in reader.read()` body
(lines 309–358).  `elapsed` is `time.time() - start_time` as sampled in that
iteration (wall clock, an input of the model).  The emitted event list is in
program order; logging always comes first. -/
def step (kern : ℚ → List ℚ) (cfg : RunConfig) (s : LoopState) (row : Row)
    (elapsed : ℚ) : List Event × StepRes :=
  if ¬ under_threshold cfg.threshold row then
    ([.logged row], .stopped .threshold_exceeded s)
  else if elapsed ≥ cfg.time_limit then
    ([.logged row], .stopped .time_limit_reached s)
  else if (match cfg.defer_start with
           | some d => decide (elapsed < d)
           | none => false) then
    ([.logged row], .next s)
  else
    let p := stepChecked kern cfg s row
    (.logged row :: p.1, p.2)

/-- The whole `for` loop over the telemetry source, modelled as the finite
list of `(reading, elapsed wall-clock time)` pairs the source produced.
Returns the events in order, the reason the loop ended, and the loop state
at the end (`none` after an exception, whose partially-mutated state the
program never consults again). -/
def runLoop (kern : ℚ → List ℚ) (cfg : RunConfig) :
    LoopState → List (Row × ℚ) → List Event × StopReason × Option LoopState
  | s, [] => ([], .source_exhausted, some s)
  | s, (row, el) :: rest =>
    match step kern cfg s row el with
    | (evs, .stopped r s') => (evs, r, some s')
    | (evs, .err) => (evs, .runtime_error, none)
    | (evs, .next s2) =>
      let p := runLoop kern cfg s2 rest
      (evs ++ p.1, p.2.1, p.2.2)

/-- Model of `run_experiment`: run the loop (any exception inside is caught), then
unconditionally run `device.terminate()` with a fresh `terminated = False`
flag.  `idleCodes` is the exit-status sequence of the successive idle
commands; the result records the event trace (idle commands appended), the
stop reason, and how many idle commands were issued. -/
def run_experiment (kern : ℚ → List ℚ) (cfg : RunConfig)
    (source : List (Row × ℚ)) (idleCodes : List ℤ) :
    Option (List Event × StopReason × ℕ) :=
  let p := runLoop kern cfg (initLoopState cfg) source
  (terminate false idleCodes).map fun q =>
    (p.1 ++ List.replicate q.1 Event.idleCmd, p.2.1, q.1)

/-! ## `Reader.timestamp_to_seconds` -/

/-- The seven numeric fields parsed out of a well-formed
`YYYY-MM-DDTHH:MM:SS.ffffff` timestamp string. -/
structure Timestamp where
  year : ℕ
  month : ℕ
  day : ℕ
  hour : ℕ
  minute : ℕ
  second : ℕ
  microsecond : ℕ
deriving DecidableEq, Repr

/-- Model of `Reader.timestamp_to_seconds`: the hand-rolled conversion
`(((year*365 + month*30 + day)*24 + hour)*60 + minute)*60 + second
 + microsecond/1_000_000` (months approximated as 30 days, years as 365). -/
def timestamp_to_seconds (ts : Timestamp) : ℚ :=
  ((((ts.year : ℚ) * 365 + (ts.month : ℚ) * 30 + (ts.day : ℚ)) * 24
      + (ts.hour : ℚ)) * 60 + (ts.minute : ℚ)) * 60
    + (ts.second : ℚ) + (ts.microsecond : ℚ) / 1000000

/-- Chronological order of two well-formed timestamps: lexicographic on
`(year, month, day, hour, minute, second, microsecond)` — the calendar order
of the instants they denote. -/
def chronLE (a b : Timestamp) : Prop :=
  a.year < b.year ∨ (a.year = b.year ∧
    (a.month < b.month ∨ (a.month = b.month ∧
      (a.day < b.day ∨ (a.day = b.day ∧
        (a.hour < b.hour ∨ (a.hour = b.hour ∧
          (a.minute < b.minute ∨ (a.minute = b.minute ∧
            (a.second < b.second ∨ (a.second = b.second ∧
              a.microsecond ≤ b.microsecond)))))))))))

instance (a b : Timestamp) : Decidable (chronLE a b) := by
  unfold chronLE; infer_instance

/-! ## Structural lemmas about `_check_steady` -/

theorem keysSteady_nodup : KEYS_TO_CHECK_STEADY.Nodup := by decide

theorem keysSteady_ne_nil : KEYS_TO_CHECK_STEADY ≠ [] := by decide

theorem chanOutcome_def (kern : ℚ → List ℚ) (sigma : Option ℚ) (sthr chk win : ℚ)
    (row : Row) (st : TrackerState) (k : Key) :
    checkChannel kern sigma sthr chk win row k (st.history k) (st.lastCheck k)
      = chanOutcome kern sigma sthr chk win row st k := rfl

theorem chanOutcome_updState_ne (kern : ℚ → List ℚ) (sigma : Option ℚ)
    (sthr chk win : ℚ) (row : Row) (st : TrackerState) (k k' : Key)
    (hne : k' ≠ k) (cr : ChanResult) :
    chanOutcome kern sigma sthr chk win row (updState st k cr) k'
      = chanOutcome kern sigma sthr chk win row st k' := by
  unfold chanOutcome updState
  simp [Function.update_noteq hne]

theorem checkSteadyAux_nil (kern : ℚ → List ℚ) (sigma : Option ℚ)
    (sthr chk win : ℚ) (row : Row) (st : TrackerState) :
    checkSteadyAux kern sigma sthr chk win row [] st = some ([], st) := rfl

theorem checkSteadyAux_cons_none (kern : ℚ → List ℚ) (sigma : Option ℚ)
    (sthr chk win : ℚ) (row : Row) (st : TrackerState) (k : Key) (ks : List Key)
    (hco : chanOutcome kern sigma sthr chk win row st k = none) :
    checkSteadyAux kern sigma sthr chk win row (k :: ks) st = none := by
  unfold checkSteadyAux
  rw [chanOutcome_def, hco]

theorem checkSteadyAux_cons_some (kern : ℚ → List ℚ) (sigma : Option ℚ)
    (sthr chk win : ℚ) (row : Row) (st : TrackerState) (k : Key) (ks : List Key)
    (cr : ChanResult)
    (hco : chanOutcome kern sigma sthr chk win row st k = some cr) :
    checkSteadyAux kern sigma sthr chk win row (k :: ks) st =
      match checkSteadyAux kern sigma sthr chk win row ks (updState st k cr) with
      | none => none
      | some (flags, st3) => some ((k, cr.steady) :: flags, st3) := by
  conv_lhs => unfold checkSteadyAux
  rw [chanOutcome_def, hco]

/-- The per-channel processing inside the key loop is independent across
channels: the loop raises exactly when some channel's own processing
(started from the pre-call state) raises. -/
theorem checkSteadyAux_none_iff (kern : ℚ → List ℚ) (sigma : Option ℚ)
    (sthr chk win : ℚ) (row : Row) :
    ∀ (ks : List Key) (st : TrackerState), ks.Nodup →
      (checkSteadyAux kern sigma sthr chk win row ks st = none ↔
        ∃ k ∈ ks, chanOutcome kern sigma sthr chk win row st k = none)
  | [], st, _ => by simp [checkSteadyAux_nil]
  | k :: ks, st, hnd => by
    have hk : k ∉ ks := (List.nodup_cons.mp hnd).1
    have hnd' : ks.Nodup := (List.nodup_cons.mp hnd).2
    cases hco : chanOutcome kern sigma sthr chk win row st k with
    | none =>
      rw [checkSteadyAux_cons_none kern sigma sthr chk win row st k ks hco]
      exact iff_of_true rfl ⟨k, List.mem_cons_self .., hco⟩
    | some cr =>
      rw [checkSteadyAux_cons_some kern sigma sthr chk win row st k ks cr hco]
      have ih := checkSteadyAux_none_iff kern sigma sthr chk win row ks
        (updState st k cr) hnd'
      have houtcome : ∀ k' ∈ ks,
          chanOutcome kern sigma sthr chk win row (updState st k cr) k'
            = chanOutcome kern sigma sthr chk win row st k' := fun k' hk' =>
        chanOutcome_updState_ne kern sigma sthr chk win row st k k'
          (fun hEq => hk (hEq ▸ hk')) cr
      cases haux : checkSteadyAux kern sigma sthr chk win row ks (updState st k cr) with
      | none =>
        obtain ⟨k', hk', hnone⟩ := ih.mp haux
        exact iff_of_true rfl
          ⟨k', List.mem_cons_of_mem _ hk', (houtcome k' hk').symm.trans hnone⟩
      | some p =>
        refine iff_of_false (by cases p; simp) ?_
        rintro ⟨k', hk', hnone⟩
        rcases List.mem_cons.mp hk' with hEq | hmem
        · rw [hEq, hco] at hnone; exact Option.noConfusion hnone
        · have hcontra : checkSteadyAux kern sigma sthr chk win row ks
              (updState st k cr) = none :=
            ih.mpr ⟨k', hmem, (houtcome k' hmem).trans hnone⟩
          rw [haux] at hcontra; exact Option.noConfusion hcontra

/-- Characterization of a successful pass of the key loop: the flag list
records, in key order, each channel's steadiness flag computed from the
pre-call state, and the final tracker state holds each channel's updated
deque and last-check time. -/
theorem checkSteadyAux_some_spec (kern : ℚ → List ℚ) (sigma : Option ℚ)
    (sthr chk win : ℚ) (row : Row) :
    ∀ (ks : List Key) (st : TrackerState), ks.Nodup →
      ∀ flags st', checkSteadyAux kern sigma sthr chk win row ks st = some (flags, st') →
        flags = ks.map (fun k =>
            (k, (Option.map ChanResult.steady
                  (chanOutcome kern sigma sthr chk win row st k)).getD false))
        ∧ (∀ k ∈ ks, ∃ cr, chanOutcome kern sigma sthr chk win row st k = some cr ∧
            st'.history k = cr.history ∧ st'.lastCheck k = cr.lastCheck)
        ∧ (∀ k, k ∉ ks → st'.history k = st.history k ∧ st'.lastCheck k = st.lastCheck k)
  | [], st, _ => by
    intro flags st' h
    rw [checkSteadyAux_nil, Option.some_inj] at h
    have hf : flags = [] := (congrArg Prod.fst h).symm
    have hs : st' = st := (congrArg Prod.snd h).symm
    subst hf; subst hs
    exact ⟨by simp, by simp, fun k _ => ⟨rfl, rfl⟩⟩
  | k :: ks, st, hnd => by
    intro flags st' h
    have hk : k ∉ ks := (List.nodup_cons.mp hnd).1
    have hnd' : ks.Nodup := (List.nodup_cons.mp hnd).2
    cases hco : chanOutcome kern sigma sthr chk win row st k with
    | none =>
      rw [checkSteadyAux_cons_none kern sigma sthr chk win row st k ks hco] at h
      exact Option.noConfusion h
    | some cr =>
      rw [checkSteadyAux_cons_some kern sigma sthr chk win row st k ks cr hco] at h
      have houtcome : ∀ k' ∈ ks,
          chanOutcome kern sigma sthr chk win row (updState st k cr) k'
            = chanOutcome kern sigma sthr chk win row st k' := fun k' hk' =>
        chanOutcome_updState_ne kern sigma sthr chk win row st k k'
          (fun hEq => hk (hEq ▸ hk')) cr
      cases haux : checkSteadyAux kern sigma sthr chk win row ks (updState st k cr) with
      | none => rw [haux] at h; exact Option.noConfusion h
      | some p =>
        rw [haux] at h
        obtain ⟨flags2, st3⟩ := p
        simp only [Option.some_inj] at h
        have hflags : flags = (k, cr.steady) :: flags2 := (congrArg Prod.fst h).symm
        have hst' : st' = st3 := (congrArg Prod.snd h).symm
        obtain ⟨ihflags, ihmem, ihout⟩ :=
          checkSteadyAux_some_spec kern sigma sthr chk win row ks
            (updState st k cr) hnd' flags2 st3 haux
        subst hflags; subst hst'
        refine ⟨?_, ?_, ?_⟩
        · simp only [List.map_cons, hco]
          refine List.cons_eq_cons.mpr ⟨rfl, ?_⟩
          rw [ihflags]
          exact List.map_congr_left fun k' hk' => by rw [houtcome k' hk']
        · intro k' hk'
          rcases List.mem_cons.mp hk' with hEq | hmem
          · subst hEq
            have hout := ihout k' hk
            refine ⟨cr, hco, ?_, ?_⟩
            · rw [hout.1]; exact Function.update_same ..
            · rw [hout.2]; exact Function.update_same ..
          · obtain ⟨cr', hcr', h1, h2⟩ := ihmem k' hmem
            exact ⟨cr', (houtcome k' hmem).symm.trans hcr', h1, h2⟩
        · intro k' hk'
          have hne : k' ≠ k := fun hEq => hk' (hEq ▸ List.mem_cons_self ..)
          have hout := ihout k' (fun hmem => hk' (List.mem_cons_of_mem _ hmem))
          refine ⟨?_, ?_⟩
          · rw [hout.1]; exact Function.update_noteq hne ..
          · rw [hout.2]; exact Function.update_noteq hne ..

/-- Unfolding `check_steady` in the configured case. -/
theorem check_steady_some_spec (kern : ℚ → List ℚ) (cfg : DeviceConfig)
    (st : TrackerState) (row : Row) (win sthr chk : ℚ) (b : Bool) (st' : TrackerState)
    (hw : cfg.steady_window = some win) (ht : cfg.steady_threshold = some sthr)
    (hc : cfg.steady_check_every = some chk)
    (h : check_steady kern cfg st row = some (b, st')) :
    ∃ flags, checkSteadyAux kern cfg.steady_sigma sthr chk win row
        KEYS_TO_CHECK_STEADY st = some (flags, st') ∧ b = flags.all Prod.snd := by
  unfold check_steady at h
  rw [hw, ht, hc] at h
  obtain ⟨p, hp, hpe⟩ := Option.map_eq_some'.mp h
  rw [Prod.mk.injEq] at hpe
  refine ⟨p.1, ?_, hpe.1.symm⟩
  rw [hp]
  exact congrArg some (Prod.ext rfl hpe.2)

/-- Glue for witnesses: an `Option` of a pair is determined by its two
projections. -/
theorem option_eq_some_pair {β γ : Type} (o : Option (β × γ)) (b : β) (c : γ)
    (h1 : o.map Prod.fst = some b) (h2 : o.elim c Prod.snd = c) : o = some (b, c) := by
  cases o with
  | none => exact Option.noConfusion h1
  | some p =>
    obtain ⟨x, y⟩ := p
    simp only [Option.map_some', Option.some_inj] at h1
    simp only [Option.elim] at h2
    rw [h1, h2]

/-- Glue for witnesses: a non-`none` `Option` is determined by its `elim`. -/
theorem option_eq_some_of_elim {γ : Type} (o : Option γ) (c : γ)
    (hs : o.isSome = true) (h : o.elim c id = c) : o = some c := by
  cases o with
  | none => exact Bool.noConfusion hs
  | some x =>
    simp only [Option.elim, id] at h
    rw [h]

/-! ## Branch analysis of one channel's processing -/

theorem headFst_append_single (l : List (ℚ × ℚ)) (t v w : ℚ) :
    ((l ++ [(t, v)]).headI).1 = ((l ++ [(t, w)]).headI).1 := by
  cases l <;> rfl

/-- Case analysis of a non-raising pass of the channel body: either the skip
condition held and the channel only got its reading appended, or it did not
and the channel was smoothed, tested, time-stamped and its eviction loop
completed without raising. -/
theorem chanOutcome_some_cases (kern : ℚ → List ℚ) (sigma : Option ℚ)
    (sthr chk win : ℚ) (row : Row) (st : TrackerState) (k : Key) (cr : ChanResult)
    (h : chanOutcome kern sigma sthr chk win row st k = some cr) :
    ∃ temp, row.get k = some temp ∧
      ((skipCond chk st row k ∧
          cr = ⟨false, false, st.history k ++ [(row.time, temp)], st.lastCheck k⟩)
        ∨ (¬ skipCond chk st row k ∧ ∃ sg h2, sigma = some sg ∧
            evict win row.time (st.history k ++ [(row.time, temp)]) = some h2 ∧
            cr = ⟨stdLt (gaussian_filter1d (kern sg)
                    ((st.history k ++ [(row.time, temp)]).map Prod.snd)) sthr,
                  true, h2, some row.time⟩)) := by
  unfold chanOutcome checkChannel at h
  cases hget : row.get k with
  | none => rw [hget] at h; exact Option.noConfusion h
  | some temp =>
    rw [hget] at h
    simp only at h
    refine ⟨temp, rfl, ?_⟩
    have hspan : ((st.history k ++ [(row.time, temp)]).headI).1
        = ((st.history k ++ [(row.time, 0)]).headI).1 :=
      headFst_append_single (st.history k) row.time temp 0
    by_cases hsk : skipCond chk st row k
    · left
      refine ⟨hsk, ?_⟩
      rw [if_pos ?_] at h
      · exact (Option.some_inj.mp h).symm
      · rcases hsk with ⟨lc, hlc, hlt⟩ | hsp
        · rw [hlc]
          simp [hlt]
        · unfold spanAfter at hsp
          rw [← hspan] at hsp
          simp [hsp]
    · right
      rw [if_neg ?_] at h
      · cases hsg : sigma with
        | none => rw [hsg] at h; exact Option.noConfusion h
        | some sg =>
          rw [hsg] at h
          cases hev : evict win row.time (st.history k ++ [(row.time, temp)]) with
          | none => rw [hev] at h; exact Option.noConfusion h
          | some h2 =>
            rw [hev] at h
            exact ⟨hsk, sg, h2, rfl, rfl, (Option.some_inj.mp h).symm⟩
      · intro hcond
        simp only [Bool.or_eq_true] at hcond
        rcases hcond with hrec | hsp
        · rcases hlc : st.lastCheck k with _ | lc
          · rw [hlc] at hrec; exact Bool.noConfusion hrec
          · rw [hlc] at hrec
            exact hsk (Or.inl ⟨lc, hlc, of_decide_eq_true hrec⟩)
        · refine hsk (Or.inr ?_)
          unfold spanAfter
          have hsp' := of_decide_eq_true hsp
          rw [hspan] at hsp'
          exact hsp'

/-- A skipped channel's flag defaults to steady = `false`. -/
theorem chanOutcome_skipped_not_steady (kern : ℚ → List ℚ) (sigma : Option ℚ)
    (sthr chk win : ℚ) (row : Row) (st : TrackerState) (k : Key) (cr : ChanResult)
    (h : chanOutcome kern sigma sthr chk win row st k = some cr)
    (hev : cr.evaluated = false) : cr.steady = false := by
  obtain ⟨temp, -, hcase | hcase⟩ :=
    chanOutcome_some_cases kern sigma sthr chk win row st k cr h
  · rw [hcase.2]
  · obtain ⟨-, sg, h2, -, -, hcr⟩ := hcase
    rw [hcr] at hev
    exact Bool.noConfusion hev

/-! ## Eviction lemmas -/

theorem evict_suffix (win lastT : ℚ) :
    ∀ l l', evict win lastT l = some l' → l' <:+ l
  | [], _, h => Option.noConfusion h
  | e :: rest, l', h => by
    rw [evict] at h
    by_cases hc : lastT - e.1 ≥ win
    · rw [if_pos hc] at h
      exact (evict_suffix win lastT rest l' h).trans (List.suffix_cons e rest)
    · rw [if_neg hc] at h
      rw [← Option.some_inj.mp h]

theorem evict_some_ne_nil (win lastT : ℚ) :
    ∀ l l', evict win lastT l = some l' → l' ≠ []
  | [], _, h => Option.noConfusion h
  | e :: rest, l', h => by
    rw [evict] at h
    by_cases hc : lastT - e.1 ≥ win
    · rw [if_pos hc] at h
      exact evict_some_ne_nil win lastT rest l' h
    · rw [if_neg hc] at h
      rw [← Option.some_inj.mp h]
      simp

theorem evict_append_pos_some (win lastT v : ℚ) (hwin : 0 < win) :
    ∀ l, ∃ l', evict win lastT (l ++ [(lastT, v)]) = some l'
  | [] => by
    refine ⟨[(lastT, v)], ?_⟩
    simp only [List.nil_append]
    rw [evict, if_neg ?_]
    show ¬ (lastT - lastT ≥ win)
    intro hge
    rw [sub_self] at hge
    exact absurd hge (not_le.mpr hwin)
  | e :: rest => by
    rw [List.cons_append, evict]
    by_cases hc : lastT - e.1 ≥ win
    · rw [if_pos hc]
      exact evict_append_pos_some win lastT v hwin rest
    · exact ⟨e :: (rest ++ [(lastT, v)]), by rw [if_neg hc]⟩

theorem evict_append_nonpos_none (win lastT v : ℚ) (hwin : win ≤ 0) :
    ∀ l, (∀ e ∈ l, e.1 ≤ lastT) → evict win lastT (l ++ [(lastT, v)]) = none
  | [], _ => by
    simp only [List.nil_append]
    rw [evict, if_pos ?_]
    · rfl
    · show lastT - lastT ≥ win
      rw [sub_self]
      exact hwin
  | e :: rest, hb => by
    rw [List.cons_append, evict, if_pos ?_]
    · exact evict_append_nonpos_none win lastT v hwin rest
        (fun x hx => hb x (List.mem_cons_of_mem _ hx))
    · have he := hb e (List.mem_cons_self _ _)
      show lastT - e.1 ≥ win
      linarith

theorem evict_head_span (win lastT : ℚ) :
    ∀ l l', evict win lastT l = some l' → lastT - l'.headI.1 < win
  | [], _, h => Option.noConfusion h
  | e :: rest, l', h => by
    rw [evict] at h
    by_cases hc : lastT - e.1 ≥ win
    · rw [if_pos hc] at h
      exact evict_head_span win lastT rest l' h
    · rw [if_neg hc] at h
      rw [← Option.some_inj.mp h]
      simpa using lt_of_not_ge hc

/-! ## Gaussian smoothing and variance lemmas -/

theorem reflectIndex_lt (n : ℕ) (hn : 0 < n) (i : ℤ) : reflectIndex n i < n := by
  have h1 : 0 ≤ i % (2 * (n : ℤ)) := Int.emod_nonneg i (by omega)
  have h2 : i % (2 * (n : ℤ)) < 2 * (n : ℤ) := Int.emod_lt_of_pos i (by omega)
  simp only [reflectIndex]
  split_ifs <;> omega

theorem map_getD_range : ∀ l : List ℚ, (List.range l.length).map (fun j => l.getD j 0) = l
  | [] => rfl
  | a :: l => by
    rw [List.length_cons, List.range_succ_eq_map, List.map_cons, List.map_map]
    refine List.cons_eq_cons.mpr ⟨rfl, ?_⟩
    have hcomp : ((fun j => (a :: l).getD j 0) ∘ Nat.succ) = fun j => l.getD j 0 := by
      funext j
      simp [List.getD_cons_succ]
    rw [hcomp]
    exact map_getD_range l

theorem sum_map_div (l : List ℚ) (S : ℚ) : (l.map (· / S)).sum = l.sum / S := by
  induction l with
  | nil => simp
  | cons a l ih => simp [ih, add_div]

theorem sum_map_mul_const (l : List ℕ) (f : ℕ → ℚ) (c : ℚ) :
    (l.map fun j => f j * c).sum = (l.map f).sum * c := by
  induction l with
  | nil => simp
  | cons a l ih => simp [ih, add_mul]

theorem gaussian_filter1d_length (kern data : List ℚ) :
    (gaussian_filter1d kern data).length = data.length := by
  unfold gaussian_filter1d correlate1d
  rw [List.length_map, List.length_range]

/-- Smoothing a constant sequence with any kernel of nonzero total weight
returns the constant sequence (the normalized weights sum to 1). -/
theorem gaussian_filter1d_const (kern data : List ℚ) (c : ℚ)
    (hd : ∀ x ∈ data, x = c) (hne : data ≠ []) (hk : kern.sum ≠ 0) :
    ∀ y ∈ gaussian_filter1d kern data, y = c := by
  intro y hy
  unfold gaussian_filter1d correlate1d at hy
  simp only [List.mem_map, List.mem_range] at hy
  obtain ⟨i, _, hyeq⟩ := hy
  have hn : 0 < data.length := List.length_pos.mpr hne
  have hdg : ∀ idx : ℤ, data.getD (reflectIndex data.length idx) 0 = c := by
    intro idx
    have hlt := reflectIndex_lt data.length hn idx
    rw [List.getD_eq_getElem data 0 hlt]
    exact hd _ (List.getElem_mem hlt)
  set w := kern.map (· / kern.sum) with hw
  have hterm : (List.range w.length).map
      (fun j => w.getD j 0 * data.getD
        (reflectIndex data.length ((i : ℤ) + (j : ℤ) - (w.length / 2 : ℕ))) 0)
      = (List.range w.length).map (fun j => w.getD j 0 * c) := by
    refine List.map_congr_left fun j _ => ?_
    rw [hdg]
  rw [hterm] at hyeq
  rw [sum_map_mul_const (List.range w.length) (fun j => w.getD j 0) c,
    map_getD_range w] at hyeq
  rw [hw, sum_map_div, div_self hk, one_mul] at hyeq
  exact hyeq.symm

theorem sum_const_list (l : List ℚ) (c : ℚ) (hd : ∀ x ∈ l, x = c) :
    l.sum = l.length * c := by
  induction l with
  | nil => simp
  | cons a l ih =>
    rw [List.sum_cons, ih (fun x hx => hd x (List.mem_cons_of_mem a hx)),
      hd a (List.mem_cons_self ..), List.length_cons]
    push_cast
    ring

/-! ## Sorted-time lemmas -/

theorem chain_head_le (l : List ℚ) (hl : List.Chain' (· ≤ ·) l) :
    ∀ x ∈ l, l.headI ≤ x := by
  cases l with
  | nil => intro x hx; cases hx
  | cons a l =>
    intro x hx
    rcases List.mem_cons.mp hx with rfl | hx
    · exact le_refl _
    · exact (List.pairwise_cons.mp (List.chain'_iff_pairwise.mp hl)).1 x hx

theorem chain_le_last (l : List ℚ) (t : ℚ)
    (hl : List.Chain' (· ≤ ·) (l ++ [t])) : ∀ x ∈ l ++ [t], x ≤ t := by
  have hp := List.chain'_iff_pairwise.mp hl
  intro x hx
  rcases List.mem_append.mp hx with hx | hx
  · exact (List.pairwise_append.mp hp).2.2 x hx t (List.mem_singleton.mpr rfl)
  · rw [List.mem_singleton.mp hx]

theorem headI_map_fst (l : List (ℚ × ℚ)) (hne : l ≠ []) :
    (l.map Prod.fst).headI = l.headI.1 := by
  cases l with
  | nil => exact absurd rfl hne
  | cons e l => rfl

/-- One `_check_steady` call preserves the sorted-times invariant. -/
theorem check_steady_timesChain (kern : ℚ → List ℚ) (cfg : DeviceConfig)
    (st : TrackerState) (row : Row) (rest : List Row) (b : Bool) (st' : TrackerState)
    (hchain : TimesChain st (row :: rest))
    (hcall : check_steady kern cfg st row = some (b, st')) :
    TimesChain st' rest := by
  have hdrop : ∀ k, List.Chain' (· ≤ ·)
      ((st.history k).map Prod.fst ++ rest.map Row.time) := by
    intro k
    refine (hchain k).sublist ?_
    rw [List.map_cons]
    exact List.Sublist.append_left (List.sublist_cons_self _ _) _
  have happend : ∀ k temp, List.Chain' (· ≤ ·)
      (((st.history k ++ [(row.time, temp)]).map Prod.fst) ++ rest.map Row.time) := by
    intro k temp
    have := hchain k
    rw [List.map_cons] at this
    simpa [List.map_append, List.append_assoc] using this
  rcases hwin : cfg.steady_window with _ | win
  · unfold check_steady at hcall
    rw [hwin] at hcall
    rcases cfg.steady_threshold <;> rcases cfg.steady_check_every <;>
      · obtain rfl : st = st' := congrArg Prod.snd (Option.some_inj.mp hcall)
        exact hdrop
  rcases hthr : cfg.steady_threshold with _ | sthr
  · unfold check_steady at hcall
    rw [hwin, hthr] at hcall
    rcases cfg.steady_check_every <;>
      · obtain rfl : st = st' := congrArg Prod.snd (Option.some_inj.mp hcall)
        exact hdrop
  rcases hchk : cfg.steady_check_every with _ | chk
  · unfold check_steady at hcall
    rw [hwin, hthr, hchk] at hcall
    obtain rfl : st = st' := congrArg Prod.snd (Option.some_inj.mp hcall)
    exact hdrop
  obtain ⟨flags, haux, -⟩ :=
    check_steady_some_spec kern cfg st row win sthr chk b st' hwin hthr hchk hcall
  obtain ⟨-, hmem, hout⟩ :=
    checkSteadyAux_some_spec kern cfg.steady_sigma sthr chk win row
      KEYS_TO_CHECK_STEADY st keysSteady_nodup flags st' haux
  intro k
  by_cases hk : k ∈ KEYS_TO_CHECK_STEADY
  · obtain ⟨cr, hcr, hhist, -⟩ := hmem k hk
    obtain ⟨temp, -, hcase | hcase⟩ :=
      chanOutcome_some_cases kern cfg.steady_sigma sthr chk win row st k cr hcr
    · rw [hhist, hcase.2]
      exact happend k temp
    · obtain ⟨-, sg, h2, -, hev, hcrEq⟩ := hcase
      rw [hhist, hcrEq]
      refine (happend k temp).sublist ?_
      exact List.Sublist.append_right
        (((evict_suffix win row.time _ h2 hev).sublist).map Prod.fst) _
  · rw [(hout k hk).1]
    exact hdrop k

/-- A whole tracker run preserves the sorted-times invariant. -/
theorem runTracker_timesChain (kern : ℚ → List ℚ) (cfg : DeviceConfig) :
    ∀ (rows rest : List Row) (st st' : TrackerState),
      TimesChain st (rows ++ rest) →
      runTracker kern cfg st rows = some st' → TimesChain st' rest
  | [], rest, st, st', hchain, hrun => by
    obtain rfl : st = st' := Option.some_inj.mp hrun
    exact hchain
  | r :: rows, rest, st, st', hchain, hrun => by
    rw [show runTracker kern cfg st (r :: rows)
        = (check_steady kern cfg st r).map Prod.snd >>= fun s =>
            runTracker kern cfg s rows from rfl] at hrun
    cases hcall : check_steady kern cfg st r with
    | none => rw [hcall] at hrun; exact Option.noConfusion hrun
    | some p =>
      rw [hcall] at hrun
      obtain ⟨b, s1⟩ := p
      simp only [Option.map_some', Option.some_bind] at hrun
      have hchain1 : TimesChain s1 (rows ++ rest) :=
        check_steady_timesChain kern cfg st r (rows ++ rest) b s1
          (by rwa [List.cons_append] at hchain) hcall
      exact runTracker_timesChain kern cfg rows rest s1 st' hchain1 hrun

/-- The population variance of a constant sequence is 0. -/
theorem npVariance_const (l : List ℚ) (c : ℚ) (hd : ∀ x ∈ l, x = c) :
    npVariance l = 0 := by
  rcases eq_or_ne l [] with hl | hl
  · subst hl; simp [npVariance, npMean]
  · have hlen : (l.length : ℚ) ≠ 0 :=
      Nat.cast_ne_zero.mpr (List.length_pos.mpr hl).ne'
    have hmean : npMean l = c := by
      unfold npMean
      rw [sum_const_list l c hd, mul_comm ((l.length : ℚ)) c, mul_div_assoc,
        div_self hlen, mul_one]
    unfold npVariance
    rw [List.sum_eq_zero, zero_div]
    intro x hx
    simp only [List.mem_map] at hx
    obtain ⟨a, ha, hax⟩ := hx
    rw [← hax, hmean, hd a ha]
    ring

/-! ## Constructive evaluation of the key loop -/

/-- Forward construction of a pass of the key loop from per-channel
outcomes computed on the pre-call state. -/
theorem checkSteadyAux_build (kern : ℚ → List ℚ) (sigma : Option ℚ)
    (sthr chk win : ℚ) (row : Row) :
    ∀ (ks : List Key) (st : TrackerState), ks.Nodup →
      ∀ (f : Key → ChanResult),
      (∀ k ∈ ks, chanOutcome kern sigma sthr chk win row st k = some (f k)) →
      checkSteadyAux kern sigma sthr chk win row ks st
        = some (ks.map (fun k => (k, (f k).steady)),
            ⟨fun k' => if k' ∈ ks then (f k').history else st.history k',
             fun k' => if k' ∈ ks then (f k').lastCheck else st.lastCheck k'⟩)
  | [], st, _, f, _ => by
    rw [checkSteadyAux_nil]
    refine congrArg some (Prod.ext rfl ?_)
    cases st with
    | mk h l => simp
  | k :: ks, st, hnd, f, hout => by
    have hk : k ∉ ks := (List.nodup_cons.mp hnd).1
    have hnd' : ks.Nodup := (List.nodup_cons.mp hnd).2
    have hco := hout k (List.mem_cons_self ..)
    rw [checkSteadyAux_cons_some kern sigma sthr chk win row st k ks (f k) hco]
    have hout2 : ∀ k' ∈ ks,
        chanOutcome kern sigma sthr chk win row (updState st k (f k)) k'
          = some (f k') := fun k' hk' =>
      (chanOutcome_updState_ne kern sigma sthr chk win row st k k'
        (fun hEq => hk (hEq ▸ hk')) (f k)).trans (hout k' (List.mem_cons_of_mem _ hk'))
    rw [checkSteadyAux_build kern sigma sthr chk win row ks
      (updState st k (f k)) hnd' f hout2]
    refine congrArg some (Prod.ext rfl ?_)
    refine TrackerState.mk.injEq .. ▸ ?_
    show (_ ∧ _)
    constructor
    · funext k'
      by_cases hmem : k' ∈ ks
      · simp [hmem, List.mem_cons_of_mem _ hmem]
      · by_cases hEq : k' = k
        · subst hEq
          simp [hmem, updState, List.mem_cons_self]
        · have : k' ∉ k :: ks := by
            intro hmem2
            rcases List.mem_cons.mp hmem2 with h | h
            · exact hEq h
            · exact hmem h
          simp [hmem, this, updState, Function.update_noteq hEq]
    · funext k'
      by_cases hmem : k' ∈ ks
      · simp [hmem, List.mem_cons_of_mem _ hmem]
      · by_cases hEq : k' = k
        · subst hEq
          simp [hmem, updState, List.mem_cons_self]
        · have : k' ∉ k :: ks := by
            intro hmem2
            rcases List.mem_cons.mp hmem2 with h | h
            · exact hEq h
            · exact hmem h
          simp [hmem, this, updState, Function.update_noteq hEq]

/-- During the ramp-up phase of a constant feed, each channel's processing
just appends the reading: the skip condition holds because the buffered span
is still below `steady_check_every`. -/
theorem chanOutcome_const_skip (kern : ℚ → List ℚ) (sigma : Option ℚ)
    (sthr chk win : ℚ) (c : Key → ℚ) (done : List Row) (r : Row) (k : Key)
    (hk : k ∈ KEYS_TO_CHECK_STEADY) (hget : r.get k = some (c k))
    (hspan : r.time - (done.headD r).time < chk) :
    chanOutcome kern sigma sthr chk win r (constHistState c done) k
      = some ⟨false, false, (done ++ [r]).map (fun x => (x.time, c k)), none⟩ := by
  unfold chanOutcome checkChannel constHistState
  rw [hget]
  simp only [if_pos hk]
  have hhead : ((done.map (fun x => (x.time, c k)) ++ [(r.time, c k)]).headI).1
      = (done.headD r).time := by
    cases done <;> rfl
  rw [if_pos ?_]
  · simp [List.map_append]
  · rw [Bool.false_or, hhead]
    exact decide_eq_true hspan

/-- At the first eligible call of a constant feed with a positive window,
each channel is evaluated and found steady: the smoothed data is the
constant, its population variance is 0, `0 < steady_threshold`, and the
eviction loop stops before emptying the deque. -/
theorem chanOutcome_const_eval (kern : ℚ → List ℚ) (sg sthr chk win : ℚ)
    (c : Key → ℚ) (done : List Row) (r : Row) (k : Key)
    (hk : k ∈ KEYS_TO_CHECK_STEADY) (hget : r.get k = some (c k))
    (hker : (kern sg).sum ≠ 0) (hsthr : 0 < sthr) (hwin : 0 < win)
    (hspan : chk ≤ r.time - (done.headD r).time) :
    chanOutcome kern (some sg) sthr chk win r (constHistState c done) k
      = some ⟨true, true,
          (evict win r.time ((done ++ [r]).map (fun x => (x.time, c k)))).getD [],
          some r.time⟩ := by
  unfold chanOutcome checkChannel constHistState
  rw [hget]
  simp only [if_pos hk]
  have hhead : ((done.map (fun x => (x.time, c k)) ++ [(r.time, c k)]).headI).1
      = (done.headD r).time := by
    cases done <;> rfl
  rw [if_neg ?_]
  · have hdata : ∀ x ∈ (done.map (fun x => (x.time, c k)) ++ [(r.time, c k)]).map Prod.snd,
        x = c k := by
      intro x hx
      obtain ⟨p, hp, hpx⟩ := List.mem_map.mp hx
      rcases List.mem_append.mp hp with hp | hp
      · obtain ⟨a, -, hap⟩ := List.mem_map.mp hp
        rw [← hpx, ← hap]
      · rw [List.mem_singleton.mp hp] at hpx
        rw [← hpx]
    have hne : (done.map (fun x => (x.time, c k)) ++ [(r.time, c k)]).map Prod.snd ≠ [] := by
      simp
    have hfconst := gaussian_filter1d_const (kern sg) _ (c k) hdata hne hker
    have hvar : npVariance (gaussian_filter1d (kern sg)
        ((done.map (fun x => (x.time, c k)) ++ [(r.time, c k)]).map Prod.snd)) = 0 :=
      npVariance_const _ (c k) hfconst
    have hstd : stdLt (gaussian_filter1d (kern sg)
        ((done.map (fun x => (x.time, c k)) ++ [(r.time, c k)]).map Prod.snd)) sthr = true := by
      unfold stdLt
      rw [hvar]
      exact decide_eq_true ⟨hsthr, pow_pos hsthr 2⟩
    have hmap : (done ++ [r]).map (fun x => (x.time, c k))
        = done.map (fun x => (x.time, c k)) ++ [(r.time, c k)] := by
      rw [List.map_append]
      rfl
    obtain ⟨l', hl'⟩ := evict_append_pos_some win r.time (c k) hwin
      (done.map (fun x => (x.time, c k)))
    rw [hstd, hmap, hl']
    rfl
  · rw [Bool.false_or, hhead]
    simp only [decide_eq_true_eq]
    exact not_lt.mpr hspan

/-- Unfolded form of `check_steady` in the configured case: the key loop post-processed by
the conjunction of the flags. -/
theorem check_steady_configured (kern : ℚ → List ℚ) (cfg : DeviceConfig)
    (st : TrackerState) (row : Row) (win sthr chk : ℚ)
    (hw : cfg.steady_window = some win) (ht : cfg.steady_threshold = some sthr)
    (hc : cfg.steady_check_every = some chk) :
    check_steady kern cfg st row
      = (checkSteadyAux kern cfg.steady_sigma sthr chk win row
          KEYS_TO_CHECK_STEADY st).map (fun p => (p.1.all Prod.snd, p.2)) := by
  unfold check_steady
  rw [hw, ht, hc]

/-- A skipped round of `_check_steady` on a constant feed returns `false`
and just appends the reading to every monitored channel. -/
theorem check_steady_const_skip (kern : ℚ → List ℚ) (cfg : DeviceConfig)
    (win sthr chk : ℚ)
    (hw : cfg.steady_window = some win) (ht : cfg.steady_threshold = some sthr)
    (hc : cfg.steady_check_every = some chk)
    (c : Key → ℚ) (done : List Row) (r : Row)
    (hget : ∀ k ∈ KEYS_TO_CHECK_STEADY, r.get k = some (c k))
    (hspan : r.time - (done.headD r).time < chk) :
    check_steady kern cfg (constHistState c done) r
      = some (false, constHistState c (done ++ [r])) := by
  rw [check_steady_configured kern cfg (constHistState c done) r win sthr chk hw ht hc]
  rw [checkSteadyAux_build kern cfg.steady_sigma sthr chk win r
    KEYS_TO_CHECK_STEADY (constHistState c done) keysSteady_nodup
    (fun k => ⟨false, false, (done ++ [r]).map (fun x => (x.time, c k)), none⟩)
    (fun k hk => chanOutcome_const_skip kern cfg.steady_sigma sthr chk win
      c done r k hk (hget k hk) hspan)]
  rw [Option.map_some']
  refine congrArg some (Prod.ext rfl ?_)
  show (⟨_, _⟩ : TrackerState) = constHistState c (done ++ [r])
  unfold constHistState
  refine TrackerState.mk.injEq .. ▸ ?_
  show (_ ∧ _)
  refine ⟨?_, ?_⟩
  · funext k'
    by_cases hmem : k' ∈ KEYS_TO_CHECK_STEADY <;> simp [hmem]
  · funext k'
    by_cases hmem : k' ∈ KEYS_TO_CHECK_STEADY <;> simp [hmem]

theorem constHistState_nil (c : Key → ℚ) : constHistState c [] = TrackerState.init := by
  unfold constHistState TrackerState.init
  refine TrackerState.mk.injEq .. ▸ ?_
  show (_ ∧ _)
  exact ⟨by funext k; split <;> rfl, rfl⟩

/-- Feeding constant readings whose spans stay below `steady_check_every`
leaves the tracker in the corresponding `constHistState` (every call skipped). -/
theorem runTracker_const (kern : ℚ → List ℚ) (cfg : DeviceConfig)
    (win sthr chk : ℚ)
    (hw : cfg.steady_window = some win) (ht : cfg.steady_threshold = some sthr)
    (hc : cfg.steady_check_every = some chk) (c : Key → ℚ) (t0 : ℚ) :
    ∀ (rows done : List Row), done ≠ [] → done.headI.time = t0 →
      (∀ r ∈ rows, ∀ k ∈ KEYS_TO_CHECK_STEADY, r.get k = some (c k)) →
      (∀ r ∈ rows, r.time - t0 < chk) →
      runTracker kern cfg (constHistState c done) rows
        = some (constHistState c (done ++ rows))
  | [], done, _, _, _, _ => by rw [List.append_nil]; rfl
  | r :: rows, done, hdne, ht0, hget, hspan => by
    rw [show runTracker kern cfg (constHistState c done) (r :: rows)
        = (check_steady kern cfg (constHistState c done) r).map Prod.snd >>= fun s =>
            runTracker kern cfg s rows from rfl]
    have hheadD : (done.headD r).time = t0 := by
      cases done with
      | nil => exact absurd rfl hdne
      | cons d l => exact ht0
    rw [check_steady_const_skip kern cfg win sthr chk hw ht hc c done r
      (fun k hk => hget r (List.mem_cons_self ..) k hk)
      (by rw [hheadD]; exact hspan r (List.mem_cons_self ..))]
    rw [Option.map_some']
    show runTracker kern cfg (constHistState c (done ++ [r])) rows = _
    have hne2 : done ++ [r] ≠ [] := by simp
    have ht02 : (done ++ [r]).headI.time = t0 := by
      cases done with
      | nil => exact absurd rfl hdne
      | cons d l => exact ht0
    rw [runTracker_const kern cfg win sthr chk hw ht hc c t0 rows (done ++ [r])
      hne2 ht02 (fun r' hr' => hget r' (List.mem_cons_of_mem _ hr'))
      (fun r' hr' => hspan r' (List.mem_cons_of_mem _ hr'))]
    rw [List.append_assoc]
    rfl

/-! ## Claim C1 -/

/-- Claim C1 (invariants).  For every configured tracker (`steady_window`,
`steady_threshold`, `steady_check_every` all set) and every call of the
steady check that returns (rather than raises): each monitored channel's
processing succeeds and (i) the channel is skipped exactly when it was last
evaluated less than `steady_check_every` seconds before the reading's `TIME`
or its buffered span is less than `steady_check_every`, and an evaluated
channel is never within strictly less than `steady_check_every` seconds of
its recorded last evaluation; (ii) the call returns `false` whenever any
channel is skipped; (iii) a call in which zero channels are evaluated
returns `false`; (iv) every call before any channel's span reaches
`steady_check_every` returns `false`. -/
theorem claim1_skip_semantics (kern : ℚ → List ℚ) (cfg : DeviceConfig)
    (win sthr chk : ℚ)
    (hw : cfg.steady_window = some win) (ht : cfg.steady_threshold = some sthr)
    (hc : cfg.steady_check_every = some chk)
    (st : TrackerState) (row : Row) (b : Bool) (st' : TrackerState)
    (hcall : check_steady kern cfg st row = some (b, st')) :
    (∀ k ∈ KEYS_TO_CHECK_STEADY,
      ∃ cr, chanOutcome kern cfg.steady_sigma sthr chk win row st k = some cr ∧
        (cr.evaluated = false ↔ skipCond chk st row k) ∧
        (cr.evaluated = true →
          st.lastCheck k = none ∨ ∃ lc, st.lastCheck k = some lc ∧ chk ≤ row.time - lc))
    ∧ ((∃ k ∈ KEYS_TO_CHECK_STEADY, ∃ cr,
          chanOutcome kern cfg.steady_sigma sthr chk win row st k = some cr ∧
          cr.evaluated = false) → b = false)
    ∧ ((∀ k ∈ KEYS_TO_CHECK_STEADY, ∀ cr,
          chanOutcome kern cfg.steady_sigma sthr chk win row st k = some cr →
          cr.evaluated = false) → b = false)
    ∧ ((∀ k ∈ KEYS_TO_CHECK_STEADY, spanAfter st row k < chk) → b = false) := by
  obtain ⟨flags, haux, hb⟩ :=
    check_steady_some_spec kern cfg st row win sthr chk b st' hw ht hc hcall
  obtain ⟨hflags, hmem, -⟩ :=
    checkSteadyAux_some_spec kern cfg.steady_sigma sthr chk win row
      KEYS_TO_CHECK_STEADY st keysSteady_nodup flags st' haux
  have part1 : ∀ k ∈ KEYS_TO_CHECK_STEADY,
      ∃ cr, chanOutcome kern cfg.steady_sigma sthr chk win row st k = some cr ∧
        (cr.evaluated = false ↔ skipCond chk st row k) ∧
        (cr.evaluated = true →
          st.lastCheck k = none ∨ ∃ lc, st.lastCheck k = some lc ∧ chk ≤ row.time - lc) := by
    intro k hk
    obtain ⟨cr, hcr, -, -⟩ := hmem k hk
    refine ⟨cr, hcr, ?_, ?_⟩
    · obtain ⟨temp, -, hcase | hcase⟩ :=
        chanOutcome_some_cases kern cfg.steady_sigma sthr chk win row st k cr hcr
      · rw [hcase.2]
        exact iff_of_true rfl hcase.1
      · obtain ⟨hns, sg, h2, hsg, hev2, hcrEq⟩ := hcase
        rw [hcrEq]
        exact iff_of_false (by simp) hns
    · intro hev
      obtain ⟨temp, -, hcase | hcase⟩ :=
        chanOutcome_some_cases kern cfg.steady_sigma sthr chk win row st k cr hcr
      · rw [hcase.2] at hev
        exact absurd hev (by simp)
      · obtain ⟨hns, sg, h2, hsg, hev2, hcrEq⟩ := hcase
        cases hlc : st.lastCheck k with
        | none => exact Or.inl rfl
        | some lc =>
          refine Or.inr ⟨lc, rfl, ?_⟩
          by_contra hlt
          exact hns (Or.inl ⟨lc, hlc, lt_of_not_ge hlt⟩)
  have part2 : (∃ k ∈ KEYS_TO_CHECK_STEADY, ∃ cr,
      chanOutcome kern cfg.steady_sigma sthr chk win row st k = some cr ∧
      cr.evaluated = false) → b = false := by
    rintro ⟨k, hk, cr, hcr, hev⟩
    have hsteady : cr.steady = false :=
      chanOutcome_skipped_not_steady kern cfg.steady_sigma sthr chk win row st k cr hcr hev
    have hmemf : ((k, false) : Key × Bool) ∈ flags := by
      rw [hflags]
      refine List.mem_map.mpr ⟨k, hk, ?_⟩
      rw [hcr]
      simp [hsteady]
    rw [hb]
    cases hall : flags.all Prod.snd with
    | false => rfl
    | true =>
      have := List.all_eq_true.mp hall _ hmemf
      exact absurd this (by simp)
  have part3 : (∀ k ∈ KEYS_TO_CHECK_STEADY, ∀ cr,
      chanOutcome kern cfg.steady_sigma sthr chk win row st k = some cr →
      cr.evaluated = false) → b = false := by
    intro hall
    have hk0 : Key.THERMO_X_TEMP ∈ KEYS_TO_CHECK_STEADY := by decide
    obtain ⟨cr, hcr, -, -⟩ := hmem _ hk0
    exact part2 ⟨_, hk0, cr, hcr, hall _ hk0 cr hcr⟩
  refine ⟨part1, part2, part3, ?_⟩
  intro hspan
  refine part3 (fun k hk cr hcr => ?_)
  obtain ⟨cr', hcr', hiff, -⟩ := part1 k hk
  rw [hcr] at hcr'
  obtain rfl := Option.some_inj.mp hcr'
  exact hiff.mpr (Or.inr (hspan k hk))

/-- Witness for C1: a configured tracker, first reading at time 0 with all
channels present; every channel is skipped (span 0 < 2) and the call
returns `false`. -/
theorem claim1_witness :
    (check_steady (fun _ => [(1 : ℚ)]) ⟨70, some 5, some 1, some 1, some 2⟩
        TrackerState.init ⟨0, fun _ => some 20⟩
      = some (false,
          ⟨fun k => if k ∈ KEYS_TO_CHECK_STEADY then [((0 : ℚ), (20 : ℚ))] else [],
           fun _ => none⟩))
    ∧ ((∀ k ∈ KEYS_TO_CHECK_STEADY,
          spanAfter TrackerState.init ⟨0, fun _ => some 20⟩ k < 2) → false = false) :=
  ⟨option_eq_some_pair _ _ _ (by with_unfolding_all decide) (by with_unfolding_all decide),
   (claim1_skip_semantics (fun _ => [(1 : ℚ)]) ⟨70, some 5, some 1, some 1, some 2⟩
      5 1 2 rfl rfl rfl TrackerState.init ⟨0, fun _ => some 20⟩ false
      ⟨fun k => if k ∈ KEYS_TO_CHECK_STEADY then [((0 : ℚ), (20 : ℚ))] else [],
       fun _ => none⟩
      (option_eq_some_pair _ _ _ (by with_unfolding_all decide)
        (by with_unfolding_all decide))).2.2.2⟩

/-! ## Claim C2 -/

/-- Claim C2 (invariants).  For every configured tracker (with a positive
window), every input sequence with non-decreasing `TIME` values and every
call that evaluated a channel: immediately after the call, that channel's
buffer is nonempty, every buffered entry's time lies between the head
(earliest) time and the reading's time (the latest), and the buffer's span
(latest minus earliest time) is strictly less than `steady_window`. -/
theorem claim2_span_bound (kern : ℚ → List ℚ) (cfg : DeviceConfig)
    (win sthr chk : ℚ)
    (hw : cfg.steady_window = some win) (ht : cfg.steady_threshold = some sthr)
    (hc : cfg.steady_check_every = some chk) (hwin : 0 < win)
    (prev : List Row) (row : Row) (st : TrackerState)
    (hrun : runTracker kern cfg TrackerState.init prev = some st)
    (hmono : List.Chain' (· ≤ ·) ((prev ++ [row]).map Row.time))
    (b : Bool) (st' : TrackerState)
    (hcall : check_steady kern cfg st row = some (b, st'))
    (k : Key) (hk : k ∈ KEYS_TO_CHECK_STEADY)
    (cr : ChanResult)
    (hcr : chanOutcome kern cfg.steady_sigma sthr chk win row st k = some cr)
    (hev : cr.evaluated = true) :
    st'.history k ≠ []
    ∧ row.time - ((st'.history k).headI).1 < win
    ∧ ∀ e ∈ st'.history k, ((st'.history k).headI).1 ≤ e.1 ∧ e.1 ≤ row.time := by
  have hchain0 : TimesChain TrackerState.init (prev ++ [row]) := by
    intro k'
    simpa [TrackerState.init] using hmono
  have hchain : TimesChain st [row] :=
    runTracker_timesChain kern cfg prev [row] TrackerState.init st hchain0 hrun
  obtain ⟨flags, haux, -⟩ :=
    check_steady_some_spec kern cfg st row win sthr chk b st' hw ht hc hcall
  obtain ⟨-, hmem, -⟩ :=
    checkSteadyAux_some_spec kern cfg.steady_sigma sthr chk win row
      KEYS_TO_CHECK_STEADY st keysSteady_nodup flags st' haux
  obtain ⟨cr2, hcr2, hhist, -⟩ := hmem k hk
  rw [hcr] at hcr2
  obtain rfl := Option.some_inj.mp hcr2
  obtain ⟨temp, hget, hcase | hcase⟩ :=
    chanOutcome_some_cases kern cfg.steady_sigma sthr chk win row st k cr hcr
  · rw [hcase.2] at hev
    exact absurd hev (by simp)
  obtain ⟨hns, sg, h2, hsg, hev, hcrEq⟩ := hcase
  have hhist' : st'.history k = h2 := by
    rw [hhist, hcrEq]
  have hchain2 : List.Chain' (· ≤ ·)
      ((st.history k ++ [(row.time, temp)]).map Prod.fst) := by
    have := hchain k
    simpa [List.map_append] using this
  have hsuffix := evict_suffix win row.time (st.history k ++ [(row.time, temp)]) h2 hev
  have hne : h2 ≠ [] :=
    evict_some_ne_nil win row.time (st.history k ++ [(row.time, temp)]) h2 hev
  refine ⟨by rw [hhist']; exact hne, ?_, ?_⟩
  · rw [hhist']
    exact evict_head_span win row.time _ h2 hev
  · intro e he
    rw [hhist'] at he ⊢
    constructor
    · have hchainE : List.Chain' (· ≤ ·) (h2.map Prod.fst) :=
        hchain2.sublist (hsuffix.sublist.map Prod.fst)
      have hmemE := List.mem_map_of_mem Prod.fst he
      have hle := chain_head_le _ hchainE e.1 hmemE
      rwa [headI_map_fst _ hne] at hle
    · have hmem2 : e ∈ st.history k ++ [(row.time, temp)] := hsuffix.sublist.subset he
      have hmemT : e.1 ∈ ((st.history k).map Prod.fst) ++ [row.time] := by
        have := List.mem_map_of_mem Prod.fst hmem2
        simpa [List.map_append] using this
      have hchain3 : List.Chain' (· ≤ ·) (((st.history k).map Prod.fst) ++ [row.time]) := by
        simpa [List.map_append] using hchain2
      exact chain_le_last _ _ hchain3 e.1 hmemT

/-- Witness for C2: window 5, check interval 2; readings at times 0 and 2
with constant value 20; at time 2 every channel is evaluated and its buffer
`[(0,20), (2,20)]` spans 2 < 5 seconds. -/
theorem claim2_witness :
    (runTracker (fun _ => [(1 : ℚ)]) ⟨70, some 5, some 1, some 1, some 2⟩
        TrackerState.init [⟨0, fun _ => some 20⟩]
      = some ⟨fun k => if k ∈ KEYS_TO_CHECK_STEADY then [((0 : ℚ), (20 : ℚ))] else [],
              fun _ => none⟩)
    ∧ (chanOutcome (fun _ => [(1 : ℚ)]) (some 1) 1 2 5 ⟨2, fun _ => some 20⟩
        ⟨fun k => if k ∈ KEYS_TO_CHECK_STEADY then [((0 : ℚ), (20 : ℚ))] else [],
         fun _ => none⟩ Key.THERMO_X_TEMP
      = some ⟨true, true, [(0, 20), (2, 20)], some 2⟩)
    ∧ (let st' : TrackerState :=
        ⟨fun k => if k ∈ KEYS_TO_CHECK_STEADY then [((0 : ℚ), (20 : ℚ)), (2, 20)] else [],
         fun k => if k ∈ KEYS_TO_CHECK_STEADY then some (2 : ℚ) else none⟩
       st'.history Key.THERMO_X_TEMP ≠ []
       ∧ (2 : ℚ) - ((st'.history Key.THERMO_X_TEMP).headI).1 < 5
       ∧ ∀ e ∈ st'.history Key.THERMO_X_TEMP,
           ((st'.history Key.THERMO_X_TEMP).headI).1 ≤ e.1 ∧ e.1 ≤ (2 : ℚ)) :=
  ⟨option_eq_some_of_elim _ _ (by with_unfolding_all decide) (by with_unfolding_all decide),
   by with_unfolding_all decide,
   claim2_span_bound (fun _ => [(1 : ℚ)]) ⟨70, some 5, some 1, some 1, some 2⟩
     5 1 2 rfl rfl rfl (by with_unfolding_all decide) [⟨0, fun _ => some 20⟩]
     ⟨2, fun _ => some 20⟩
     ⟨fun k => if k ∈ KEYS_TO_CHECK_STEADY then [((0 : ℚ), (20 : ℚ))] else [],
      fun _ => none⟩
     (option_eq_some_of_elim _ _ (by with_unfolding_all decide) (by with_unfolding_all decide))
     (show List.Chain' (· ≤ ·) [(0 : ℚ), 2] from
       List.chain'_cons.mpr ⟨by with_unfolding_all decide, List.chain'_singleton _⟩) true
     ⟨fun k => if k ∈ KEYS_TO_CHECK_STEADY then [((0 : ℚ), (20 : ℚ)), (2, 20)] else [],
      fun k => if k ∈ KEYS_TO_CHECK_STEADY then some (2 : ℚ) else none⟩
     (option_eq_some_pair _ _ _ (by with_unfolding_all decide) (by with_unfolding_all decide))
     Key.THERMO_X_TEMP (by decide)
     ⟨true, true, [(0, 20), (2, 20)], some 2⟩ (by with_unfolding_all decide) rfl⟩

/-! ## Claim C3 -/

theorem all_map_true (ks : List Key) (f : Key → ChanResult)
    (h : ∀ k ∈ ks, (f k).steady = true) :
    (ks.map (fun k => (k, (f k).steady))).all Prod.snd = true := by
  rw [List.all_eq_true]
  intro x hx
  obtain ⟨k, hk, hkx⟩ := List.mem_map.mp hx
  rw [← hkx]
  exact h k hk

set_option maxHeartbeats 4000000 in
/-- Claim C3 (functional correctness).  For a fully configured tracker with
`0 < steady_threshold` (and positive window and check interval, the regime
in which the eviction loop is well defined), feeding readings in which every
monitored channel holds a constant value, the steady check returns `true` at
the first call at which the buffered span reaches `steady_check_every`
(every earlier call's span stayed below it): the Gaussian smoothing of a
constant sequence is constant, its population standard deviation is 0, and
`0 < steady_threshold`.  `kern sg` is the (nonzero-total-weight) Gaussian
sample list for the configured sigma. -/
theorem claim3_constant_feed_steady (kern : ℚ → List ℚ) (cfg : DeviceConfig)
    (win sthr chk sg : ℚ)
    (hw : cfg.steady_window = some win) (ht : cfg.steady_threshold = some sthr)
    (hc : cfg.steady_check_every = some chk) (hs : cfg.steady_sigma = some sg)
    (hker : (kern sg).sum ≠ 0) (hsthr : 0 < sthr) (hwin : 0 < win) (hchk : 0 < chk)
    (c : Key → ℚ) (prev : List Row) (row : Row)
    (hconst : ∀ r ∈ prev ++ [row], ∀ k ∈ KEYS_TO_CHECK_STEADY, r.get k = some (c k))
    (hprev : ∀ r ∈ prev, r.time - (prev.headD row).time < chk)
    (helig : chk ≤ row.time - (prev.headD row).time) :
    ∃ st st', runTracker kern cfg TrackerState.init prev = some st
      ∧ check_steady kern cfg st row = some (true, st') := by
  cases prev with
  | nil =>
    exfalso
    have h0 : chk ≤ row.time - row.time := helig
    rw [sub_self] at h0
    exact absurd h0 (not_le.mpr hchk)
  | cons r0 rest =>
    have hstep0 : check_steady kern cfg (constHistState c []) r0
        = some (false, constHistState c [r0]) := by
      refine check_steady_const_skip kern cfg win sthr chk hw ht hc c [] r0
        (fun k hk => hconst r0 (by simp) k hk) ?_
      show r0.time - r0.time < chk
      rw [sub_self]
      exact hchk
    have hrest : runTracker kern cfg (constHistState c [r0]) rest
        = some (constHistState c ([r0] ++ rest)) := by
      refine runTracker_const kern cfg win sthr chk hw ht hc c r0.time rest [r0]
        (by simp) rfl
        (fun r hr k hk => hconst r (by simp [hr]) k hk)
        (fun r hr => hprev r (List.mem_cons_of_mem _ hr))
    have hrun : runTracker kern cfg TrackerState.init (r0 :: rest)
        = some (constHistState c (r0 :: rest)) := by
      rw [show runTracker kern cfg TrackerState.init (r0 :: rest)
          = (check_steady kern cfg TrackerState.init r0).map Prod.snd >>= fun s =>
              runTracker kern cfg s rest from rfl]
      rw [← constHistState_nil c, hstep0, Option.map_some']
      show runTracker kern cfg (constHistState c [r0]) rest = _
      rw [hrest, List.singleton_append]
    have hcall : ∃ st', check_steady kern cfg (constHistState c (r0 :: rest)) row
        = some (true, st') := by
      rw [check_steady_configured kern cfg (constHistState c (r0 :: rest)) row
        win sthr chk hw ht hc, hs]
      rw [checkSteadyAux_build kern (some sg) sthr chk win row KEYS_TO_CHECK_STEADY
        (constHistState c (r0 :: rest)) keysSteady_nodup
        (fun k => ⟨true, true,
          (evict win row.time (((r0 :: rest) ++ [row]).map (fun x => (x.time, c k)))).getD [],
          some row.time⟩)
        (fun k hk => chanOutcome_const_eval kern sg sthr chk win c (r0 :: rest) row k hk
          (hconst row (by simp) k hk) hker hsthr hwin helig)]
      rw [Option.map_some',
        all_map_true KEYS_TO_CHECK_STEADY _ (fun k _ => rfl)]
      exact ⟨_, rfl⟩
    obtain ⟨st', hcall⟩ := hcall
    exact ⟨constHistState c (r0 :: rest), st', hrun, hcall⟩

/-- Witness for C3: window 5, sigma 1, threshold 1, check interval 2,
constant value 20, readings at times 0 then 2; the second reading is the
first eligible call and returns `true`. -/
theorem claim3_witness :
    ((0 : ℚ) < 1 ∧ ((fun (_ : ℚ) => [(1 : ℚ)]) 1).sum ≠ 0)
    ∧ ∃ st st',
        runTracker (fun _ => [(1 : ℚ)]) ⟨70, some 5, some 1, some 1, some 2⟩
          TrackerState.init [⟨0, fun _ => some 20⟩] = some st
        ∧ check_steady (fun _ => [(1 : ℚ)]) ⟨70, some 5, some 1, some 1, some 2⟩
            st ⟨2, fun _ => some 20⟩ = some (true, st') :=
  ⟨⟨by with_unfolding_all decide, by with_unfolding_all decide⟩,
   claim3_constant_feed_steady (fun _ => [(1 : ℚ)]) ⟨70, some 5, some 1, some 1, some 2⟩
     5 1 2 1 rfl rfl rfl rfl (by with_unfolding_all decide)
     (by with_unfolding_all decide) (by with_unfolding_all decide)
     (by with_unfolding_all decide) (fun _ => 20) [⟨0, fun _ => some 20⟩]
     ⟨2, fun _ => some 20⟩ (by with_unfolding_all decide)
     (by
       intro r hr
       rw [List.mem_singleton.mp hr]
       show (0 : ℚ) - 0 < 2
       with_unfolding_all decide)
     (show (2 : ℚ) ≤ 2 - 0 by with_unfolding_all decide)⟩

/-! ## Claim C4 -/

theorem under_threshold_eq_true_iff (threshold : ℚ) (row : Row) :
    under_threshold threshold row = true ↔
      ∀ k ∈ KEYS_TO_CHECK_THRESHOLD, (row.get k).getD 0 < threshold := by
  unfold under_threshold
  rw [List.all_eq_true]
  refine forall_congr' fun k => forall_congr' fun _ => ?_
  rw [Bool.not_eq_true', decide_eq_false_iff_not, not_le]

/-- Claim C4 (functional correctness).  The safety gate passes iff every
monitored channel's value (with an absent channel read as 0) is strictly
below the threshold; a channel at or above the threshold (in particular
exactly at it) makes the gate fail; and replacing every channel by its
explicit defaulted value changes nothing, so an absent channel contributes
exactly 0.  `under_threshold` is a pure function of the reading and the
threshold, so it reads only the reading and mutates no state. -/
theorem claim4_safety_gate (threshold : ℚ) (row : Row) :
    (under_threshold threshold row = true ↔
      ∀ k ∈ KEYS_TO_CHECK_THRESHOLD, (row.get k).getD 0 < threshold)
    ∧ (∀ k ∈ KEYS_TO_CHECK_THRESHOLD, threshold ≤ (row.get k).getD 0 →
        under_threshold threshold row = false)
    ∧ under_threshold threshold ⟨row.time, fun k => some ((row.get k).getD 0)⟩
        = under_threshold threshold row := by
  refine ⟨under_threshold_eq_true_iff threshold row, ?_, ?_⟩
  · intro k hk hge
    cases hu : under_threshold threshold row with
    | false => rfl
    | true =>
      exact absurd ((under_threshold_eq_true_iff threshold row).mp hu k hk)
        (not_lt.mpr hge)
  · rw [Bool.eq_iff_iff, under_threshold_eq_true_iff, under_threshold_eq_true_iff]
    exact Iff.rfl

/-- Witness for C4: a reading with `THERMO_X_TEMP` exactly at the 70 °C
threshold fails the gate (boundary case). -/
theorem claim4_witness :
    ((70 : ℚ) ≤ (((⟨0, fun k => if k = Key.THERMO_X_TEMP then some 70 else some 20⟩ :
        Row).get Key.THERMO_X_TEMP).getD 0))
    ∧ under_threshold 70
        ⟨0, fun k => if k = Key.THERMO_X_TEMP then some 70 else some 20⟩ = false :=
  ⟨by with_unfolding_all decide,
   (claim4_safety_gate 70
      ⟨0, fun k => if k = Key.THERMO_X_TEMP then some 70 else some 20⟩).2.1
     Key.THERMO_X_TEMP (by decide) (by with_unfolding_all decide)⟩

/-! ## Claim C5 -/

/-- Claim C5 (temporal).  In every loop iteration the reading is logged first
(the emitted event list starts with the log event on every control path),
and if the safety gate fails on the reading, the step consists of exactly
the log event followed by a stop with reason `threshold_exceeded`, with the
loop state unchanged — no tracker buffer is appended to and no activate
command is issued — and this holds for every elapsed time, so it preempts
the time-limit check and the deferral window. -/
theorem claim5_log_first_threshold_preempts (kern : ℚ → List ℚ) (cfg : RunConfig)
    (s : LoopState) (row : Row) (elapsed : ℚ) :
    (∃ evs r, step kern cfg s row elapsed = (Event.logged row :: evs, r))
    ∧ (under_threshold cfg.threshold row = false →
        step kern cfg s row elapsed = ([Event.logged row], .stopped .threshold_exceeded s)
        ∧ ∀ rest, runLoop kern cfg s ((row, elapsed) :: rest)
            = ([Event.logged row], .threshold_exceeded, some s)) := by
  constructor
  · unfold step
    split_ifs <;> exact ⟨_, _, rfl⟩
  · intro hu
    have hstep : step kern cfg s row elapsed
        = ([Event.logged row], .stopped .threshold_exceeded s) := by
      unfold step
      rw [if_pos (by simp [hu])]
    exact ⟨hstep, fun rest => by simp only [runLoop, hstep]⟩

/-- Witness for C5: a 75 °C reading against a 70 °C threshold is logged and
stops the run with `threshold_exceeded` even at elapsed time 0. -/
theorem claim5_witness :
    under_threshold (70 : ℚ) ⟨0, fun _ => some 75⟩ = false
    ∧ (step (fun _ => [(1 : ℚ)]) ⟨70, 100, none, none, none, false, none, none, none, none⟩
          (initLoopState ⟨70, 100, none, none, none, false, none, none, none, none⟩)
          ⟨0, fun _ => some 75⟩ 0
        = ([Event.logged ⟨0, fun _ => some 75⟩], .stopped .threshold_exceeded
            (initLoopState ⟨70, 100, none, none, none, false, none, none, none, none⟩))
       ∧ ∀ rest, runLoop (fun _ => [(1 : ℚ)])
            ⟨70, 100, none, none, none, false, none, none, none, none⟩
            (initLoopState ⟨70, 100, none, none, none, false, none, none, none, none⟩)
            ((⟨0, fun _ => some 75⟩, 0) :: rest)
          = ([Event.logged ⟨0, fun _ => some 75⟩], .threshold_exceeded,
              some (initLoopState ⟨70, 100, none, none, none, false, none, none, none, none⟩))) :=
  ⟨by with_unfolding_all decide,
   (claim5_log_first_threshold_preempts (fun _ => [(1 : ℚ)])
      ⟨70, 100, none, none, none, false, none, none, none, none⟩
      (initLoopState ⟨70, 100, none, none, none, false, none, none, none, none⟩)
      ⟨0, fun _ => some 75⟩ 0).2 (by with_unfolding_all decide)⟩

/-! ## Claim C6 -/

/-- Model fact: `Device.terminate` with the flag unset issues one idle command per
leading nonzero exit status plus the final successful one. -/
theorem terminate_count : ∀ codes : List ℤ, (0 : ℤ) ∈ codes →
    terminate false codes = some ((codes.takeWhile (· != 0)).length + 1, true)
  | [] => by
    intro h
    exact absurd h (List.not_mem_nil _)
  | c :: rest => by
    intro h
    by_cases hc : c = 0
    · subst hc
      simp [terminate, List.takeWhile_cons]
    · have hrest : (0 : ℤ) ∈ rest := by
        rcases List.mem_cons.mp h with h0 | h0
        · exact absurd h0.symm hc
        · exact h0
      rw [show terminate false (c :: rest)
          = (terminate false rest).map (fun p => (p.1 + 1, p.2)) from by
        simp [terminate, hc]]
      rw [terminate_count rest hrest]
      simp [List.takeWhile_cons, hc]

/-- Claim C6 (error handling).  Given that the idle command eventually reports
success: a `terminate` call with the flag unset issues idle commands
exactly until the first zero exit status (never giving up on failures) and
latches the flag; a call with the flag already set issues no command (so
exactly one terminate call per run issues the idle commands — the `atexit`
re-invocation is a no-op); and on every termination path of the run loop
(any stop reason, source exhaustion, or an exception) `run_experiment`
appends those idle commands to the trace — cleanup always runs. -/
theorem claim6_cleanup (idleCodes : List ℤ) (h0 : (0 : ℤ) ∈ idleCodes) :
    terminate false idleCodes
      = some ((idleCodes.takeWhile (· != 0)).length + 1, true)
    ∧ (∀ codes, terminate true codes = some (0, true))
    ∧ ∀ (kern : ℚ → List ℚ) (cfg : RunConfig) (source : List (Row × ℚ)),
        ∃ evs r, run_experiment kern cfg source idleCodes
          = some (evs ++ List.replicate
                ((idleCodes.takeWhile (· != 0)).length + 1) Event.idleCmd,
              r, (idleCodes.takeWhile (· != 0)).length + 1) := by
  refine ⟨terminate_count idleCodes h0, fun codes => by cases codes <;> rfl, ?_⟩
  intro kern cfg source
  refine ⟨(runLoop kern cfg (initLoopState cfg) source).1,
    (runLoop kern cfg (initLoopState cfg) source).2.1, ?_⟩
  unfold run_experiment
  rw [terminate_count idleCodes h0, Option.map_some']

/-- Witness for C6: exit statuses `[2, 0]` make `terminate` issue exactly
two idle commands and latch the flag. -/
theorem claim6_witness :
    ((0 : ℤ) ∈ [(2 : ℤ), 0]) ∧ terminate false [(2 : ℤ), 0] = some (2, true) :=
  ⟨by decide, ((claim6_cleanup [(2 : ℤ), 0] (by decide)).1).trans (by decide)⟩

/-! ## Claim C7 -/

/-- Shared analysis: with speed xor gimbal configured, the first reading
that reaches the motor-activation point (after logging and passing the
threshold, time-limit, deferral and init-steady gates) makes the `assert`
raise: the step emits only the log event and ends in the error outcome, and
the loop ends with `runtime_error`. -/
theorem step_partial_wheel_err (kern : ℚ → List ℚ) (cfg : RunConfig)
    (s : LoopState) (row : Row) (elapsed : ℚ)
    (hpw : cfg.speed.isSome ≠ cfg.gimbal.isSome)
    (hm : s.motor_activated = false) (hci : s.check_init = false)
    (hunder : under_threshold cfg.threshold row = true)
    (htime : elapsed < cfg.time_limit)
    (hdefer : ∀ d, cfg.defer_start = some d → d ≤ elapsed) :
    step kern cfg s row elapsed = ([Event.logged row], .err)
    ∧ ∀ rest, runLoop kern cfg s ((row, elapsed) :: rest)
        = ([Event.logged row], .runtime_error, none) := by
  have hstep : step kern cfg s row elapsed = ([Event.logged row], .err) := by
    unfold step
    rw [if_neg (not_not_intro hunder)]
    rw [if_neg (not_le.mpr htime)]
    rw [if_neg ?hd]
    case hd =>
      cases hde : cfg.defer_start with
      | none => simp
      | some d => simp [not_lt.mpr (hdefer d hde)]
    unfold stepChecked
    rw [if_neg (by simp [hci])]
    unfold stepMotorSteady
    rw [if_neg (by simp [hm])]
    rcases hsp : cfg.speed with _ | sp <;> rcases hg : cfg.gimbal with _ | g
    · rw [hsp, hg] at hpw
      exact absurd rfl hpw
    · rfl
    · rfl
    · rw [hsp, hg] at hpw
      exact absurd rfl hpw
  exact ⟨hstep, fun rest => by simp only [runLoop, hstep]⟩

/-- Claim C7 (error handling, amended).  A partial wheel configuration is NOT
rejected before the loop: the run proceeds, logs readings, and only when a
reading reaches the motor-activation point does the `assert` raise — a
runtime fault inside the loop (caught by the loop's exception handler, so
cleanup still runs). -/
theorem claim7_partial_wheel_runtime_fault (kern : ℚ → List ℚ) (cfg : RunConfig)
    (s : LoopState) (row : Row) (elapsed : ℚ)
    (hpw : cfg.speed.isSome ≠ cfg.gimbal.isSome)
    (hm : s.motor_activated = false) (hci : s.check_init = false)
    (hunder : under_threshold cfg.threshold row = true)
    (htime : elapsed < cfg.time_limit)
    (hdefer : ∀ d, cfg.defer_start = some d → d ≤ elapsed) :
    step kern cfg s row elapsed = ([Event.logged row], .err)
    ∧ ∀ rest, runLoop kern cfg s ((row, elapsed) :: rest)
        = ([Event.logged row], .runtime_error, none) :=
  step_partial_wheel_err kern cfg s row elapsed hpw hm hci hunder htime hdefer

/-- Counterexample to C7 as stated: with `speed = 1` and no gimbal, a safe
reading IS logged and processed, and the failure is a runtime error inside
the loop — not a configuration error raised before the loop starts. -/
theorem claim7_counterexample :
    runLoop (fun _ => [(1 : ℚ)])
      ⟨70, 100, some 1, none, none, false, none, none, none, none⟩
      (initLoopState ⟨70, 100, some 1, none, none, false, none, none, none, none⟩)
      [(⟨0, fun _ => some 20⟩, 0)]
    = ([Event.logged ⟨0, fun _ => some 20⟩], .runtime_error, none) :=
  (step_partial_wheel_err (fun _ => [(1 : ℚ)])
    ⟨70, 100, some 1, none, none, false, none, none, none, none⟩
    (initLoopState ⟨70, 100, some 1, none, none, false, none, none, none, none⟩)
    ⟨0, fun _ => some 20⟩ 0 (by decide) rfl rfl (by with_unfolding_all decide)
    (by with_unfolding_all decide) (fun d hd => Option.noConfusion hd)).2 []

/-- Witness for the amended C7 at the same concrete input. -/
theorem claim7_witness :
    under_threshold (70 : ℚ) ⟨0, fun _ => some 20⟩ = true
    ∧ step (fun _ => [(1 : ℚ)])
        ⟨70, 100, some 1, none, none, false, none, none, none, none⟩
        (initLoopState ⟨70, 100, some 1, none, none, false, none, none, none, none⟩)
        ⟨0, fun _ => some 20⟩ 0
      = ([Event.logged ⟨0, fun _ => some 20⟩], .err) :=
  ⟨by with_unfolding_all decide,
   (claim7_partial_wheel_runtime_fault (fun _ => [(1 : ℚ)])
     ⟨70, 100, some 1, none, none, false, none, none, none, none⟩
     (initLoopState ⟨70, 100, some 1, none, none, false, none, none, none, none⟩)
     ⟨0, fun _ => some 20⟩ 0 (by decide) rfl rfl (by with_unfolding_all decide)
     (by with_unfolding_all decide) (fun d hd => Option.noConfusion hd)).1⟩

/-! ## Claim C8 -/

/-- Claim C8 (code bug).  The hand-rolled timestamp conversion is NOT
monotone over chronologically ordered well-formed timestamps: Jan 31 23:00
precedes Feb 1 00:00, yet (months being counted as 30 days) the code maps
the earlier instant to a strictly larger seconds value.  This confirms the
spec's §9 note that the 30-day-month arithmetic is a latent bug. -/
theorem claim8_timestamp_not_monotone :
    chronLE ⟨2024, 1, 31, 23, 0, 0, 0⟩ ⟨2024, 2, 1, 0, 0, 0, 0⟩
    ∧ timestamp_to_seconds ⟨2024, 2, 1, 0, 0, 0, 0⟩
        < timestamp_to_seconds ⟨2024, 1, 31, 23, 0, 0, 0⟩ :=
  ⟨by decide, by with_unfolding_all decide⟩

/-! ## Claim C9 -/

theorem check_steady_disabled (kern : ℚ → List ℚ) (cfg : DeviceConfig)
    (st : TrackerState) (row : Row)
    (hdis : cfg.steady_window = none ∨ cfg.steady_threshold = none ∨
      cfg.steady_check_every = none) :
    check_steady kern cfg st row = some (false, st) := by
  unfold check_steady
  rcases hw : cfg.steady_window with _ | w <;>
    rcases ht : cfg.steady_threshold with _ | t <;>
      rcases hc : cfg.steady_check_every with _ | e
  all_goals first
    | rfl
    | (rcases hdis with h | h | h <;> simp_all)

theorem chanOutcome_isSome (kern : ℚ → List ℚ) (sg sthr chk win : ℚ)
    (row : Row) (st : TrackerState) (k : Key) (hwin : 0 < win)
    (hget : (row.get k).isSome = true) :
    (chanOutcome kern (some sg) sthr chk win row st k).isSome = true := by
  unfold chanOutcome checkChannel
  obtain ⟨v, hv⟩ := Option.isSome_iff_exists.mp hget
  rw [hv]
  simp only
  obtain ⟨l', hl'⟩ := evict_append_pos_some win row.time v hwin (st.history k)
  rw [hl']
  split <;> simp

/-- With a non-positive window, a channel that is present and not skipped
reaches the eviction loop, which empties its deque and raises `IndexError`
(`none`); the bound on the history times says the recorded entries are no
later than the current reading, as in any real run. -/
theorem chanOutcome_nonpos_win_none (kern : ℚ → List ℚ) (sg sthr chk win : ℚ)
    (row : Row) (st : TrackerState) (k : Key) (v : ℚ)
    (hwin : win ≤ 0) (hget : row.get k = some v)
    (hb : ∀ e ∈ st.history k, e.1 ≤ row.time)
    (hns : ¬ skipCond chk st row k) :
    chanOutcome kern (some sg) sthr chk win row st k = none := by
  unfold chanOutcome checkChannel
  rw [hget]
  simp only
  rw [if_neg ?_]
  · rw [evict_append_nonpos_none win row.time v hwin (st.history k) hb]
  · intro hcond
    simp only [Bool.or_eq_true] at hcond
    rcases hcond with hrec | hsp
    · rcases hlc : st.lastCheck k with _ | lc
      · rw [hlc] at hrec
        exact Bool.noConfusion hrec
      · rw [hlc] at hrec
        exact hns (Or.inl ⟨lc, hlc, of_decide_eq_true hrec⟩)
    · refine hns (Or.inr ?_)
      unfold spanAfter
      have hsp' := of_decide_eq_true hsp
      rw [headFst_append_single (st.history k) row.time v 0] at hsp'
      exact hsp'

/-- Claim C9 (safety, amended).  The steady check is deterministic (it is a
pure function of configuration, state and reading), and: in disabled mode
(any of window/threshold/check-interval unset) it returns `false` for every
reading without touching any buffer; fully configured (sigma included) with
a positive `steady_window`, it returns a boolean without raising whenever
every monitored channel is present in the reading.  The positivity proviso
is necessary: the third conjunct shows that with `steady_window ≤ 0` the
eviction loop empties a channel's deque and raises `IndexError` at the
first eligible evaluation.  (As the counterexample shows, a missing
monitored channel raises `KeyError`, and an unset sigma raises at the first
eligible evaluation, so the claim's unconditional no-error statement is
false.) -/
theorem claim9_steady_check_totality (kern : ℚ → List ℚ) (cfg : DeviceConfig) :
    (∀ (st : TrackerState) (row : Row),
      (cfg.steady_window = none ∨ cfg.steady_threshold = none ∨
        cfg.steady_check_every = none) →
      check_steady kern cfg st row = some (false, st))
    ∧ (∀ (st : TrackerState) (row : Row) (win sthr chk sg : ℚ),
        cfg.steady_window = some win → cfg.steady_threshold = some sthr →
        cfg.steady_check_every = some chk → cfg.steady_sigma = some sg →
        0 < win →
        (∀ k ∈ KEYS_TO_CHECK_STEADY, (row.get k).isSome = true) →
        (check_steady kern cfg st row).isSome = true)
    ∧ (∀ (st : TrackerState) (row : Row) (win sthr chk sg v : ℚ),
        cfg.steady_window = some win → cfg.steady_threshold = some sthr →
        cfg.steady_check_every = some chk → cfg.steady_sigma = some sg →
        win ≤ 0 →
        row.get Key.THERMO_X_TEMP = some v →
        (∀ e ∈ st.history Key.THERMO_X_TEMP, e.1 ≤ row.time) →
        ¬ skipCond chk st row Key.THERMO_X_TEMP →
        check_steady kern cfg st row = none) := by
  refine ⟨?_, ?_, ?_⟩
  · intro st row hdis
    exact check_steady_disabled kern cfg st row hdis
  · intro st row win sthr chk sg hw ht hc hs hwin hget
    rw [check_steady_configured kern cfg st row win sthr chk hw ht hc, hs]
    cases haux : checkSteadyAux kern (some sg) sthr chk win row KEYS_TO_CHECK_STEADY st with
    | some p => simp
    | none =>
      obtain ⟨k, hk, hnone⟩ := (checkSteadyAux_none_iff kern (some sg) sthr chk win row
        KEYS_TO_CHECK_STEADY st keysSteady_nodup).mp haux
      have hsome := chanOutcome_isSome kern sg sthr chk win row st k hwin (hget k hk)
      rw [hnone] at hsome
      exact Bool.noConfusion hsome
  · intro st row win sthr chk sg v hw ht hc hs hwin hget hb hns
    rw [check_steady_configured kern cfg st row win sthr chk hw ht hc, hs]
    have hkeys : KEYS_TO_CHECK_STEADY = Key.THERMO_X_TEMP ::
        [Key.THERMO_Z_TEMP, Key.THERMO_SP_TEMP, Key.THERMO_NSP_TEMP] := rfl
    rw [hkeys, checkSteadyAux_cons_none kern (some sg) sthr chk win row st
      Key.THERMO_X_TEMP _
      (chanOutcome_nonpos_win_none kern sg sthr chk win row st Key.THERMO_X_TEMP v
        hwin hget hb hns)]
    rfl

/-- Counterexample to C9 as stated: a fully configured tracker fed a
reading that has a `TIME` but lacks the monitored thermocouple channels
raises `KeyError` (modelled as `none`) instead of returning a boolean. -/
theorem claim9_counterexample :
    check_steady (fun _ => [(1 : ℚ)]) ⟨70, some 10, some 1, some 1, some 5⟩
      TrackerState.init ⟨0, fun _ => none⟩ = none := rfl

/-- Witness for the amended C9: with all channels present and a positive
window the configured check returns a boolean; with a non-positive window
and an eligible channel it raises (`none`). -/
theorem claim9_witness :
    ((0 : ℚ) < 10
      ∧ (∀ k ∈ KEYS_TO_CHECK_STEADY,
          ((⟨0, fun _ => some 20⟩ : Row).get k).isSome = true)
      ∧ (check_steady (fun _ => [(1 : ℚ)]) ⟨70, some 10, some 1, some 1, some 5⟩
          TrackerState.init ⟨0, fun _ => some 20⟩).isSome = true)
    ∧ ((-1 : ℚ) ≤ 0
      ∧ ¬ skipCond 0 TrackerState.init ⟨0, fun _ => some 20⟩ Key.THERMO_X_TEMP
      ∧ check_steady (fun _ => [(1 : ℚ)]) ⟨70, some (-1), some 1, some 1, some 0⟩
          TrackerState.init ⟨0, fun _ => some 20⟩ = none) := by
  have hns : ¬ skipCond 0 TrackerState.init ⟨0, fun _ => some 20⟩ Key.THERMO_X_TEMP := by
    rintro (⟨lc, hlc, -⟩ | hsp)
    · exact Option.noConfusion hlc
    · exact absurd hsp (by with_unfolding_all decide)
  refine ⟨⟨?_, ?_, ?_⟩, ?_, hns, ?_⟩
  · with_unfolding_all decide
  · decide
  · exact (claim9_steady_check_totality (fun _ => [(1 : ℚ)])
      ⟨70, some 10, some 1, some 1, some 5⟩).2.1 TrackerState.init
      ⟨0, fun _ => some 20⟩ 10 1 5 1 rfl rfl rfl rfl
      (by with_unfolding_all decide) (by decide)
  · with_unfolding_all decide
  · exact (claim9_steady_check_totality (fun _ => [(1 : ℚ)])
      ⟨70, some (-1), some 1, some 1, some 0⟩).2.2 TrackerState.init
      ⟨0, fun _ => some 20⟩ (-1) 1 0 1 20 rfl rfl rfl rfl
      (by with_unfolding_all decide) rfl
      (by intro e he; simp [TrackerState.init] at he) hns

/-! ## Claim C10 -/

theorem stepChecked_disabled (kern : ℚ → List ℚ) (cfg : RunConfig)
    (s : LoopState) (row : Row) (hci : s.check_init = true)
    (hdis : cfg.steady_window = none ∨ cfg.steady_threshold = none ∨
      cfg.steady_check_every = none) :
    stepChecked kern cfg s row = ([], .next s) := by
  unfold stepChecked
  rw [if_pos hci]
  rw [check_steady_disabled kern cfg.deviceCfg s.initTracker row hdis]

theorem step_disabled (kern : ℚ → List ℚ) (cfg : RunConfig)
    (hdis : cfg.steady_window = none ∨ cfg.steady_threshold = none ∨
      cfg.steady_check_every = none)
    (s : LoopState) (row : Row) (elapsed : ℚ) (hci : s.check_init = true) :
    step kern cfg s row elapsed = ([Event.logged row], .stopped .threshold_exceeded s)
    ∨ step kern cfg s row elapsed = ([Event.logged row], .stopped .time_limit_reached s)
    ∨ step kern cfg s row elapsed = ([Event.logged row], .next s) := by
  unfold step
  split_ifs <;>
    first
      | exact Or.inl rfl
      | exact Or.inr (Or.inl rfl)
      | exact Or.inr (Or.inr rfl)
      | (simp only [stepChecked_disabled kern cfg s row hci hdis]
         first
           | exact Or.inr (Or.inr rfl)
           | exact Or.inr (Or.inr trivial))

theorem runLoop_disabled (kern : ℚ → List ℚ) (cfg : RunConfig)
    (hdis : cfg.steady_window = none ∨ cfg.steady_threshold = none ∨
      cfg.steady_check_every = none) :
    ∀ (source : List (Row × ℚ)) (s : LoopState), s.check_init = true →
      ∃ evs r, runLoop kern cfg s source = (evs, r, some s)
        ∧ (∀ sp gb, Event.activate sp gb ∉ evs)
        ∧ (r = .threshold_exceeded ∨ r = .time_limit_reached ∨ r = .source_exhausted)
  | [], s, hci =>
    ⟨[], .source_exhausted, rfl,
     fun sp gb h => absurd h (List.not_mem_nil _), Or.inr (Or.inr rfl)⟩
  | (row, el) :: rest, s, hci => by
    rcases step_disabled kern cfg hdis s row el hci with hstep | hstep | hstep
    · refine ⟨[Event.logged row], .threshold_exceeded, ?_, ?_, Or.inl rfl⟩
      · simp only [runLoop, hstep]
      · intro sp gb hmem
        rcases List.mem_singleton.mp hmem with h
        exact Event.noConfusion h
    · refine ⟨[Event.logged row], .time_limit_reached, ?_, ?_, Or.inr (Or.inl rfl)⟩
      · simp only [runLoop, hstep]
      · intro sp gb hmem
        rcases List.mem_singleton.mp hmem with h
        exact Event.noConfusion h
    · obtain ⟨evs, r, hrun, hnoact, hr⟩ := runLoop_disabled kern cfg hdis rest s hci
      refine ⟨Event.logged row :: evs, r, ?_, ?_, hr⟩
      · simp only [runLoop, hstep, hrun, List.singleton_append]
      · intro sp gb hmem
        rcases List.mem_cons.mp hmem with h | h
        · exact Event.noConfusion h
        · exact hnoact sp gb h

/-- Claim C10 (temporal).  If `check_init_steady` is enabled but any of the
steady parameters is unset, the initial-steady check returns `false` on
every reading and the loop skips to the next reading, so for every
telemetry sequence: no activate command is ever issued; the loop state —
including `motor_activated = false` and both (untouched) trackers — is
exactly the initial state on every path; and the run can only end by
threshold trip, time limit or source exhaustion (never steady state, and no
steady evaluation ever raises). -/
theorem claim10_disabled_init_steady (kern : ℚ → List ℚ) (cfg : RunConfig)
    (hinit : cfg.check_init_steady = true)
    (hdis : cfg.steady_window = none ∨ cfg.steady_threshold = none ∨
      cfg.steady_check_every = none)
    (source : List (Row × ℚ)) :
    ∃ evs r, runLoop kern cfg (initLoopState cfg) source
        = (evs, r, some (initLoopState cfg))
      ∧ (∀ sp gb, Event.activate sp gb ∉ evs)
      ∧ (initLoopState cfg).motor_activated = false
      ∧ (r = .threshold_exceeded ∨ r = .time_limit_reached ∨ r = .source_exhausted) := by
  obtain ⟨evs, r, hrun, hnoact, hr⟩ :=
    runLoop_disabled kern cfg hdis source (initLoopState cfg) hinit
  exact ⟨evs, r, hrun, hnoact, rfl, hr⟩

/-- Witness for C10: init-steady enabled, no steady parameters, wheel fully
configured; a single safe reading is consumed without activating the motor
and the run ends by source exhaustion with the state untouched. -/
theorem claim10_witness :
    (⟨70, 100, some 3, some 45, none, true, none, none, none, none⟩ :
        RunConfig).check_init_steady = true
    ∧ ∃ evs r, runLoop (fun _ => [(1 : ℚ)])
          ⟨70, 100, some 3, some 45, none, true, none, none, none, none⟩
          (initLoopState ⟨70, 100, some 3, some 45, none, true, none, none, none, none⟩)
          [(⟨0, fun _ => some 20⟩, 0)]
        = (evs, r, some (initLoopState
            ⟨70, 100, some 3, some 45, none, true, none, none, none, none⟩))
      ∧ (∀ sp gb, Event.activate sp gb ∉ evs)
      ∧ (initLoopState ⟨70, 100, some 3, some 45, none, true, none, none,
          none, none⟩).motor_activated = false
      ∧ (r = .threshold_exceeded ∨ r = .time_limit_reached ∨ r = .source_exhausted) :=
  ⟨rfl,
   claim10_disabled_init_steady (fun _ => [(1 : ℚ)])
     ⟨70, 100, some 3, some 45, none, true, none, none, none, none⟩
     rfl (Or.inl rfl) [(⟨0, fun _ => some 20⟩, 0)]⟩

end Monitor
